import Mathlib

/-!
Verification development for the parallel flat-resolution algorithm
(`flat_resolution_parallel.h`): a shallow embedding of the data model and
the five components (`find_flat_edges`, `label_this`, `BuildGradient`,
`CombineGradients`, `resolve_flats_barnes`) together with theorems about
their behaviour.

Grids are embedded as total functions `Int → Int → Int` carrying width,
height and a no-data sentinel; the working integer grids (`labels`,
`incrementations`, `towards`, `away`, `flat_resolution_mask`) are total
functions `Cell → Int` updated pointwise; `std::deque<grid_cell>` becomes
`List Cell` (front = head, `push_back` = append).  Every loop is embedded
as a fuel-indexed iteration of its loop body; the orchestrator supplies
fuel that is proven sufficient for the loops it runs.
-/

/-- A grid coordinate, as the C++ `grid_cell` (a pair of `int`s). -/
abbrev Cell := Int × Int

/-- Modelled from the spec: the sentinel flow-direction value marking a cell
as part of a flat ("no defined downslope direction").  `NO_FLOW` is declared
in a header outside the sources at hand; the spec only requires it to be a
distinguished code, so we fix a concrete value. -/
def NO_FLOW : Int := 0

/-- The iteration marker `grid_cell(-1,-1)` used by `BuildGradient`. -/
def markerCell : Cell := (-1, -1)

/-- Modelled from the spec: the D8 / 8-connected neighbourhood.  The
`dx`/`dy` offset tables (indices 1..8) live in a utility header outside the
sources at hand; the spec fixes them as the eight cardinal and diagonal
neighbours.  The enumeration order is irrelevant to every property proved
here. -/
def offsets : List Cell :=
  [(1, 0), (1, 1), (0, 1), (-1, 1), (-1, 0), (-1, -1), (0, -1), (1, -1)]

/-- Modelled from the spec: the `IN_GRID(x,y,w,h)` bounds test from the
utility header — a definite in/out-of-range result for a coordinate pair
against a width/height. -/
def inGrid (x y : Int) (w h : Nat) : Bool :=
  decide (0 ≤ x) && decide (x < (w : Int)) && decide (0 ≤ y) && decide (y < (h : Int))

theorem inGrid_iff (x y : Int) (w h : Nat) :
    inGrid x y w h = true ↔ 0 ≤ x ∧ x < (w : Int) ∧ 0 ≤ y ∧ y < (h : Int) := by
  simp [inGrid, and_assoc]

/-- A read-only input grid (`array2d<T>` specialised to integer values):
width, height, a total read function and the grid's no-data sentinel. -/
structure Grid where
  width : Nat
  height : Nat
  get : Int → Int → Int
  noData : Int

/-- Pointwise update of a working integer grid (`int_2d` write). -/
def upd (m : Cell → Int) (c : Cell) (v : Int) : Cell → Int :=
  fun d => if d = c then v else m d

theorem upd_same (m : Cell → Int) (c : Cell) (v : Int) : upd m c v c = v := by
  simp [upd]

theorem upd_other (m : Cell → Int) (c d : Cell) (v : Int) (h : d ≠ c) :
    upd m c v d = m d := by
  simp [upd, h]

/-- Pointwise update of the `flat_height` table (a `std::vector<int>`
indexed by label, embedded as a total function). -/
def updI (m : Int → Int) (k : Int) (v : Int) : Int → Int :=
  fun j => if j = k then v else m j

/-- Generic fuel-indexed iteration of a loop: `iterRun done step n s`
applies `step` up to `n` times, stopping as soon as `done` holds. -/
def iterRun {σ : Type} (done : σ → Bool) (step : σ → σ) : Nat → σ → σ
  | 0, s => s
  | n + 1, s => if done s then s else iterRun done step n (step s)

theorem iterRun_zero {σ : Type} (done : σ → Bool) (step : σ → σ) (s : σ) :
    iterRun done step 0 s = s := rfl

theorem iterRun_succ {σ : Type} (done : σ → Bool) (step : σ → σ) (n : Nat) (s : σ) :
    iterRun done step (n + 1) s =
      if done s then s else iterRun done step n (step s) := rfl

theorem iterRun_of_done {σ : Type} {done : σ → Bool} {step : σ → σ}
    (n : Nat) {s : σ} (h : done s = true) : iterRun done step n s = s := by
  cases n with
  | zero => rfl
  | succ n => simp [iterRun_succ, h]

/-- If an invariant is preserved by every non-final step, it is preserved by
the whole iteration. -/
theorem iterRun_inv {σ : Type} {done : σ → Bool} {step : σ → σ}
    {P : σ → Prop} (hstep : ∀ s, P s → done s = false → P (step s)) :
    ∀ (n : Nat) (s : σ), P s → P (iterRun done step n s) := by
  intro n
  induction n with
  | zero => intro s h; exact h
  | succ n ih =>
    intro s h
    rw [iterRun_succ]
    by_cases hd : done s = true
    · simp [hd]; exact h
    · have hd' : done s = false := by
        cases hdone : done s with
        | false => rfl
        | true => exact absurd hdone hd
      simp [hd']
      exact ih (step s) (hstep s h hd')

/-- Fuel sufficiency from a strictly decreasing measure: if every non-final
step preserves `P` and strictly decreases `μ`, then fuel `≥ μ s` drives the
iteration to a `done` state. -/
theorem iterRun_done_of_measure {σ : Type} {done : σ → Bool} {step : σ → σ}
    {P : σ → Prop} {μ : σ → Nat}
    (hstep : ∀ s, P s → done s = false → P (step s))
    (hdec : ∀ s, P s → done s = false → μ (step s) < μ s) :
    ∀ (n : Nat) (s : σ), P s → μ s ≤ n → done (iterRun done step n s) = true := by
  intro n
  induction n with
  | zero =>
    intro s hP hμ
    cases hdone : done s with
    | true => simp [iterRun_zero, hdone]
    | false =>
      exfalso
      have := hdec s hP hdone
      omega
  | succ n ih =>
    intro s hP hμ
    rw [iterRun_succ]
    cases hdone : done s with
    | true => simp [hdone]
    | false =>
      simp only [Bool.false_eq_true, if_false]
      have hlt := hdec s hP hdone
      exact ih (step s) (hstep s hP hdone) (by omega)

/-! ## EdgeFinder: `find_flat_edges` (lines 202–231)

For every cell with a defined-data flow direction, its eight neighbours are
scanned in order; the first neighbour that triggers a classification sends
the *current* cell to `low_edges` (current cell has a defined direction, the
neighbour is `NO_FLOW` at equal elevation) or to `high_edges` (current cell
is `NO_FLOW`, the neighbour is strictly higher), and the scan breaks. -/

/-- The inner neighbour scan of `find_flat_edges` (lines 213–227): returns
`some true` if the cell is pushed onto `low_edges`, `some false` if onto
`high_edges`, `none` if the loop finishes without a classification. -/
def scanNbrs (flowdirs elevations : Grid) (x y : Int) : List Cell → Option Bool
  | [] => none
  | o :: rest =>
    let nx := x + o.1
    let ny := y + o.2
    if inGrid nx ny flowdirs.width flowdirs.height = false then
      scanNbrs flowdirs elevations x y rest
    else if flowdirs.get nx ny = flowdirs.noData then
      scanNbrs flowdirs elevations x y rest
    else if flowdirs.get x y ≠ NO_FLOW ∧ flowdirs.get nx ny = NO_FLOW ∧
        elevations.get nx ny = elevations.get x y then
      some true
    else if flowdirs.get x y = NO_FLOW ∧ elevations.get x y < elevations.get nx ny then
      some false
    else
      scanNbrs flowdirs elevations x y rest

/-- The scan order of the double loop (lines 208–210): `x` outer from `0` to
`width-1`, `y` inner from `0` to `height-1`. -/
def cellList (w h : Nat) : List Cell :=
  (List.range w).flatMap fun x => (List.range h).map fun y => (Int.ofNat x, Int.ofNat y)

/-- The per-cell body of the `find_flat_edges` double loop (lines 210–228):
skip no-data cells, otherwise classify by the first qualifying neighbour. -/
def ffeStep (flowdirs elevations : Grid) (acc : List Cell × List Cell) (c : Cell) :
    List Cell × List Cell :=
  if flowdirs.get c.1 c.2 = flowdirs.noData then acc
  else
    match scanNbrs flowdirs elevations c.1 c.2 offsets with
    | some true => (acc.1 ++ [c], acc.2)
    | some false => (acc.1, acc.2 ++ [c])
    | none => acc

/-- `find_flat_edges` (lines 202–231): the pair `(low_edges, high_edges)`. -/
def find_flat_edges (flowdirs elevations : Grid) : List Cell × List Cell :=
  (cellList flowdirs.width flowdirs.height).foldl (ffeStep flowdirs elevations) ([], [])

/-! ## FlatLabeler: `label_this` (lines 168–184)

A plain FIFO flood fill from a seed: popped cells of the target elevation
that are still unlabeled receive the label and push every in-grid neighbour
(the bounds test uses the dimensions of the `labels` grid). -/

/-- The mutable state of one `label_this` call: the labels grid and the
`to_fill` queue. -/
structure LTState where
  labels : Cell → Int
  queue : List Cell

/-- The `label_this` loop is done when `to_fill` is empty (line 174). -/
def ltDone (s : LTState) : Bool := s.queue.isEmpty

/-- The in-grid neighbours pushed at lines 180–182 (bounds from the labels
grid, which the orchestrator sizes from the flow-direction grid). -/
def ltPush (w h : Nat) (c : Cell) : List Cell :=
  offsets.filterMap fun o =>
    if inGrid (c.1 + o.1) (c.2 + o.2) w h then some (c.1 + o.1, c.2 + o.2) else none

/-- One iteration of the `label_this` loop body (lines 175–182). -/
def ltStep (elevations : Grid) (w h : Nat) (target lab : Int) (s : LTState) : LTState :=
  match s.queue with
  | [] => s
  | c :: rest =>
    if elevations.get c.1 c.2 ≠ target ∨ s.labels c > -1 then
      { labels := s.labels, queue := rest }
    else
      { labels := upd s.labels c lab, queue := rest ++ ltPush w h c }

/-- Fuel sufficient for any `label_this` call on a `w × h` labels grid
(the measure `9·#unlabeled-in-grid + queue-length` starts at most here and
strictly decreases every iteration). -/
def ltFuel (w h : Nat) : Nat := 9 * (w * h) + 2

/-- `label_this` (lines 168–184): flood fill from `(x,y)` with the target
elevation captured at entry (line 172). -/
def label_this (x y : Int) (lab : Int) (labels : Cell → Int) (elevations : Grid)
    (w h : Nat) : Cell → Int :=
  (iterRun ltDone (ltStep elevations w h (elevations.get x y) lab) (ltFuel w h)
    { labels := labels, queue := [(x, y)] }).labels

/-! ## GradientBuilder: `BuildGradient` (lines 42–81)

Layered BFS with an explicit iteration marker: the marker bumps the layer
counter `loops`; cells are assigned `loops` on first visit, record it in
`flat_height` at their label, and push in-grid equal-elevation `NO_FLOW`
neighbours (the bounds test uses the elevation grid's dimensions, line 73). -/

/-- The mutable state of one `BuildGradient` call. -/
structure BGState where
  incr : Cell → Int
  fh : Int → Int
  queue : List Cell
  loops : Int

/-- The `BuildGradient` loop runs `while(edges.size()!=1)` (line 54). -/
def bgDone (s : BGState) : Bool := s.queue.length == 1

/-- The eligible neighbours pushed at lines 70–77: in grid (elevation-grid
bounds), equal elevation, and flagged `NO_FLOW`. -/
def bgPush (elevations flowdirs : Grid) (c : Cell) : List Cell :=
  offsets.filterMap fun o =>
    let b : Cell := (c.1 + o.1, c.2 + o.2)
    if inGrid b.1 b.2 elevations.width elevations.height ∧
        elevations.get b.1 b.2 = elevations.get c.1 c.2 ∧
        flowdirs.get b.1 b.2 = NO_FLOW then
      some b
    else none

/-- One iteration of the `BuildGradient` loop body (lines 55–77). -/
def bgStep (elevations flowdirs : Grid) (labels : Cell → Int) (s : BGState) : BGState :=
  match s.queue with
  | [] => s
  | c :: rest =>
    if c.1 = -1 then
      { incr := s.incr, fh := s.fh, queue := rest ++ [markerCell], loops := s.loops + 1 }
    else if s.incr c > 0 then
      { incr := s.incr, fh := s.fh, queue := rest, loops := s.loops }
    else
      { incr := upd s.incr c s.loops,
        fh := updI s.fh (labels c) s.loops,
        queue := rest ++ bgPush elevations flowdirs c,
        loops := s.loops }

/-- Fuel sufficient for a `BuildGradient` call on seeds drawn from a
`w × h` grid. -/
def bgFuel (w h len : Nat) : Nat := 2 * (9 * (w * h) + len + 1) + 2

/-- `BuildGradient` (lines 42–81): seeds the queue, appends the iteration
marker (line 53), starts at `loops = 1` (line 47) and runs the layered BFS
to completion.  Returns the final state (incrementations, `flat_height`,
drained queue). -/
def BuildGradient (elevations flowdirs : Grid) (incr : Cell → Int)
    (edges : List Cell) (fh : Int → Int) (labels : Cell → Int) : BGState :=
  iterRun bgDone (bgStep elevations flowdirs labels)
    (bgFuel elevations.width elevations.height edges.length)
    { incr := incr, fh := fh, queue := edges ++ [markerCell], loops := 1 }

/-! ## GradientCombiner: `CombineGradients` (lines 116–147)

Re-walks the flat from the low edges (equal-elevation neighbours pushed
unconditionally, line 134), writes the combined mask for cells with
`towards > 0` (lines 137–140) and consumes `towards` by setting it to `-1`
(line 143). -/

/-- The mutable state of the `CombineGradients` loop. -/
structure CGState where
  towards : Cell → Int
  mask : Cell → Int
  queue : List Cell

/-- The `CombineGradients` loop runs `while(edge.size()!=0)` (line 124). -/
def cgDone (s : CGState) : Bool := s.queue.isEmpty

/-- The equal-elevation in-grid neighbours pushed at lines 131–136
(bounds from the elevation grid; no flow-direction condition). -/
def cgPush (elevations : Grid) (c : Cell) : List Cell :=
  offsets.filterMap fun o =>
    let b : Cell := (c.1 + o.1, c.2 + o.2)
    if inGrid b.1 b.2 elevations.width elevations.height ∧
        elevations.get b.1 b.2 = elevations.get c.1 c.2 then
      some b
    else none

/-- The mask value written for a processed cell with `towards > 0`
(lines 137–140). -/
def cgMaskValue (away : Cell → Int) (fh : Int → Int) (labels : Cell → Int)
    (tw : Int) (c : Cell) : Int :=
  2 * (tw - 1) + (if away c > 0 then fh (labels c) - away c + 1 else 0)

/-- One iteration of the `CombineGradients` loop body (lines 125–143). -/
def cgStep (elevations : Grid) (away : Cell → Int) (fh : Int → Int)
    (labels : Cell → Int) (s : CGState) : CGState :=
  match s.queue with
  | [] => s
  | c :: rest =>
    if s.towards c = -1 then
      { towards := s.towards, mask := s.mask, queue := rest }
    else
      { towards := upd s.towards c (-1),
        mask :=
          if s.towards c > 0 then upd s.mask c (cgMaskValue away fh labels (s.towards c) c)
          else s.mask,
        queue := rest ++ cgPush elevations c }

/-- Fuel sufficient for a `CombineGradients` call on seeds drawn from a
`w × h` grid. -/
def cgFuel (w h len : Nat) : Nat := 9 * (w * h) + len + 1

/-- `CombineGradients` (lines 116–147). -/
def CombineGradients (elevations : Grid) (towards away : Cell → Int)
    (mask : Cell → Int) (edge : List Cell) (fh : Int → Int)
    (labels : Cell → Int) : CGState :=
  iterRun cgDone (cgStep elevations away fh labels)
    (cgFuel elevations.width elevations.height edge.length)
    { towards := towards, mask := mask, queue := edge }

/-! ## Orchestrator: `resolve_flats_barnes` (lines 233–303) -/

/-- Which structural diagnostic the orchestrator emits: "There were no
flats!" (line 259), "There were flats, but none of them had outlets!"
(line 257), "Not all flats have outlets; the DEM contains
sinks/pits/depressions!" (line 280), or none of these. -/
inductive Report where
  | noFlats
  | flatsWithoutOutlets
  | sinksPresent
  | resolvedAll
  deriving DecidableEq

/-- The observable outcome of `resolve_flats_barnes`: the two output grids
(`labels`, `flat_resolution_mask`), the edge queues, the region count
`group_number`, the two incrementation grids as left by `BuildGradient`
(`towards` before `CombineGradients` consumes it), the final `flat_height`
table, and the structural diagnostic. -/
structure ResolveResult where
  labels : Cell → Int
  mask : Cell → Int
  lowEdges : List Cell
  highEdges : List Cell
  groupCount : Int
  towards : Cell → Int
  away : Cell → Int
  fh : Int → Int
  report : Report

/-- The labeling loop of the orchestrator (lines 264–267): walk the low
edges in order, flood-filling from each still-unlabeled one with the next
`group_number`. -/
def labelEdges (elevations : Grid) (w h : Nat) :
    List Cell → (Cell → Int) → Int → (Cell → Int) × Int
  | [], labels, n => (labels, n)
  | c :: rest, labels, n =>
    if labels c = -1 then
      labelEdges elevations w h rest (label_this c.1 c.2 n labels elevations w h) (n + 1)
    else
      labelEdges elevations w h rest labels n

/-- Stage 1 of the orchestrator's main path (lines 263–268): the labels grid
(initialised to `-1`, line 242) after the labeling loop, paired with the
final `group_number`. -/
def resolveLabels (elevations flowdirs : Grid) : (Cell → Int) × Int :=
  labelEdges elevations flowdirs.width flowdirs.height
    (find_flat_edges flowdirs elevations).1 (fun _ => -1) 0

/-- Stage 2 (lines 272–281): the high-edge queue with the edges of
unlabeled (outlet-less) flats removed. -/
def resolveHigh2 (elevations flowdirs : Grid) : List Cell :=
  (find_flat_edges flowdirs elevations).2.filter fun c =>
    (resolveLabels elevations flowdirs).1 c ≠ -1

/-- Stage 3 (line 299): the `towards` `BuildGradient` pass, seeded from the
low edges, on a zero-initialised incrementation grid and the
zero-initialised `flat_height` vector (lines 289, 296). -/
def resolveBgT (elevations flowdirs : Grid) : BGState :=
  BuildGradient elevations flowdirs (fun _ => 0)
    (find_flat_edges flowdirs elevations).1 (fun _ => 0)
    (resolveLabels elevations flowdirs).1

/-- Stage 4 (line 300): the `away` `BuildGradient` pass, seeded from the
filtered high edges; `flat_height` is carried over and overwritten. -/
def resolveBgA (elevations flowdirs : Grid) : BGState :=
  BuildGradient elevations flowdirs (fun _ => 0)
    (resolveHigh2 elevations flowdirs) (resolveBgT elevations flowdirs).fh
    (resolveLabels elevations flowdirs).1

/-- Stage 5 (line 302): `CombineGradients` on the two incrementation grids,
the sentinel-initialised mask (line 249) and the low edges as seeds. -/
def resolveCG (elevations flowdirs : Grid) : CGState :=
  CombineGradients elevations (resolveBgT elevations flowdirs).incr
    (resolveBgA elevations flowdirs).incr (fun _ => -1)
    (find_flat_edges flowdirs elevations).1
    (resolveBgA elevations flowdirs).fh
    (resolveLabels elevations flowdirs).1

/-- `resolve_flats_barnes` (lines 233–303): size and sentinel-initialise
`labels` and the mask from the flow-direction grid (lines 241–250), find the
edges, return at once if there are no low edges (lines 255–261), otherwise
run the staged main path (labeling, high-edge filtering, the two
`BuildGradient` passes, `CombineGradients`, lines 263–302). -/
def resolve_flats_barnes (elevations flowdirs : Grid) : ResolveResult :=
  if (find_flat_edges flowdirs elevations).1.isEmpty then
    { labels := fun _ => -1, mask := fun _ => -1,
      lowEdges := (find_flat_edges flowdirs elevations).1,
      highEdges := (find_flat_edges flowdirs elevations).2,
      groupCount := 0, towards := fun _ => 0, away := fun _ => 0,
      fh := fun _ => 0,
      report := if (find_flat_edges flowdirs elevations).2.isEmpty then Report.noFlats
        else Report.flatsWithoutOutlets }
  else
    { labels := (resolveLabels elevations flowdirs).1,
      mask := (resolveCG elevations flowdirs).mask,
      lowEdges := (find_flat_edges flowdirs elevations).1,
      highEdges := resolveHigh2 elevations flowdirs,
      groupCount := (resolveLabels elevations flowdirs).2,
      towards := (resolveBgT elevations flowdirs).incr,
      away := (resolveBgA elevations flowdirs).incr,
      fh := (resolveBgA elevations flowdirs).fh,
      report := if (resolveHigh2 elevations flowdirs).length <
          (find_flat_edges flowdirs elevations).2.length then Report.sinksPresent
        else Report.resolvedAll }

/-! ## Concrete fixtures

`elSR`/`fdSR`: the spec's single-row scenario — elevations `[5,5,5]`, flow
directions `[1 (defined), NO_FLOW, NO_FLOW]` on a `3 × 1` grid.
`elOne`: a `1 × 1` elevation grid (used for the dimension-mismatch run).
`elNF`/`fdNF`: a `1 × 1` grid whose only cell has a defined direction
(a no-flat input). -/

def elSR : Grid := { width := 3, height := 1, get := fun _ _ => 5, noData := -9 }

def fdSR : Grid :=
  { width := 3, height := 1,
    get := fun x y => if x = 0 ∧ y = 0 then 1 else NO_FLOW, noData := -9 }

def elOne : Grid := { width := 1, height := 1, get := fun _ _ => 5, noData := -9 }

def elNF : Grid := { width := 1, height := 1, get := fun _ _ => 5, noData := -9 }

def fdNF : Grid := { width := 1, height := 1, get := fun _ _ => 1, noData := -9 }

/-! ## Facts about `find_flat_edges` -/

theorem cellList_mem {w h : Nat} {c : Cell} (hc : c ∈ cellList w h) :
    0 ≤ c.1 ∧ c.1 < (w : Int) ∧ 0 ≤ c.2 ∧ c.2 < (h : Int) := by
  unfold cellList at hc
  obtain ⟨x, hx, hc2⟩ := List.mem_flatMap.mp hc
  obtain ⟨y, hy, hc3⟩ := List.mem_map.mp hc2
  have hx' : x < w := List.mem_range.mp hx
  have hy' : y < h := List.mem_range.mp hy
  cases hc3
  exact ⟨Int.ofNat_nonneg x, Int.ofNat_lt.mpr hx', Int.ofNat_nonneg y, Int.ofNat_lt.mpr hy'⟩

/-- Soundness of the inner neighbour scan when it classifies the cell as a
low edge: the cell has a defined, non-no-data flow direction and some
in-grid neighbour that is `NO_FLOW`, not no-data, and at equal elevation. -/
theorem scanNbrs_some_true {flowdirs elevations : Grid} {x y : Int} :
    ∀ {os : List Cell}, scanNbrs flowdirs elevations x y os = some true →
      flowdirs.get x y ≠ NO_FLOW ∧
      ∃ o ∈ os,
        inGrid (x + o.1) (y + o.2) flowdirs.width flowdirs.height = true ∧
        flowdirs.get (x + o.1) (y + o.2) ≠ flowdirs.noData ∧
        flowdirs.get (x + o.1) (y + o.2) = NO_FLOW ∧
        elevations.get (x + o.1) (y + o.2) = elevations.get x y := by
  intro os
  induction os with
  | nil => intro h; exact absurd h (by simp [scanNbrs])
  | cons o rest ih =>
    intro h
    rw [scanNbrs] at h
    by_cases hg : inGrid (x + o.1) (y + o.2) flowdirs.width flowdirs.height = false
    · rw [if_pos hg] at h
      obtain ⟨h1, o', ho', h2⟩ := ih h
      exact ⟨h1, o', List.mem_cons_of_mem _ ho', h2⟩
    · rw [if_neg hg] at h
      by_cases hnd : flowdirs.get (x + o.1) (y + o.2) = flowdirs.noData
      · rw [if_pos hnd] at h
        obtain ⟨h1, o', ho', h2⟩ := ih h
        exact ⟨h1, o', List.mem_cons_of_mem _ ho', h2⟩
      · rw [if_neg hnd] at h
        by_cases hlow : flowdirs.get x y ≠ NO_FLOW ∧
            flowdirs.get (x + o.1) (y + o.2) = NO_FLOW ∧
            elevations.get (x + o.1) (y + o.2) = elevations.get x y
        · refine ⟨hlow.1, o, List.mem_cons_self o rest, ?_, hnd, hlow.2.1, hlow.2.2⟩
          simpa using hg
        · rw [if_neg hlow] at h
          by_cases hhigh : flowdirs.get x y = NO_FLOW ∧
              elevations.get x y < elevations.get (x + o.1) (y + o.2)
          · rw [if_pos hhigh] at h; exact absurd h (by simp)
          · rw [if_neg hhigh] at h
            obtain ⟨h1, o', ho', h2⟩ := ih h
            exact ⟨h1, o', List.mem_cons_of_mem _ ho', h2⟩

/-- Soundness of the inner neighbour scan when it classifies the cell as a
high edge: the cell is `NO_FLOW` with a strictly higher in-grid neighbour. -/
theorem scanNbrs_some_false {flowdirs elevations : Grid} {x y : Int} :
    ∀ {os : List Cell}, scanNbrs flowdirs elevations x y os = some false →
      flowdirs.get x y = NO_FLOW ∧
      ∃ o ∈ os,
        inGrid (x + o.1) (y + o.2) flowdirs.width flowdirs.height = true ∧
        flowdirs.get (x + o.1) (y + o.2) ≠ flowdirs.noData ∧
        elevations.get x y < elevations.get (x + o.1) (y + o.2) := by
  intro os
  induction os with
  | nil => intro h; exact absurd h (by simp [scanNbrs])
  | cons o rest ih =>
    intro h
    rw [scanNbrs] at h
    by_cases hg : inGrid (x + o.1) (y + o.2) flowdirs.width flowdirs.height = false
    · rw [if_pos hg] at h
      obtain ⟨h1, o', ho', h2⟩ := ih h
      exact ⟨h1, o', List.mem_cons_of_mem _ ho', h2⟩
    · rw [if_neg hg] at h
      by_cases hnd : flowdirs.get (x + o.1) (y + o.2) = flowdirs.noData
      · rw [if_pos hnd] at h
        obtain ⟨h1, o', ho', h2⟩ := ih h
        exact ⟨h1, o', List.mem_cons_of_mem _ ho', h2⟩
      · rw [if_neg hnd] at h
        by_cases hlow : flowdirs.get x y ≠ NO_FLOW ∧
            flowdirs.get (x + o.1) (y + o.2) = NO_FLOW ∧
            elevations.get (x + o.1) (y + o.2) = elevations.get x y
        · rw [if_pos hlow] at h; exact absurd h (by simp)
        · rw [if_neg hlow] at h
          by_cases hhigh : flowdirs.get x y = NO_FLOW ∧
              elevations.get x y < elevations.get (x + o.1) (y + o.2)
          · refine ⟨hhigh.1, o, List.mem_cons_self o rest, ?_, hnd, hhigh.2⟩
            simpa using hg
          · rw [if_neg hhigh] at h
            obtain ⟨h1, o', ho', h2⟩ := ih h
            exact ⟨h1, o', List.mem_cons_of_mem _ ho', h2⟩

theorem ffe_foldl_mem (flowdirs elevations : Grid) :
    ∀ (L : List Cell) (acc : List Cell × List Cell) (c : Cell),
      (c ∈ (L.foldl (ffeStep flowdirs elevations) acc).1 →
        c ∈ acc.1 ∨ (c ∈ L ∧ flowdirs.get c.1 c.2 ≠ flowdirs.noData ∧
          scanNbrs flowdirs elevations c.1 c.2 offsets = some true)) ∧
      (c ∈ (L.foldl (ffeStep flowdirs elevations) acc).2 →
        c ∈ acc.2 ∨ (c ∈ L ∧ flowdirs.get c.1 c.2 ≠ flowdirs.noData ∧
          scanNbrs flowdirs elevations c.1 c.2 offsets = some false)) := by
  intro L
  induction L with
  | nil => intro acc c; constructor <;> (intro h; exact Or.inl h)
  | cons d rest ih =>
    intro acc c
    constructor
    · intro h
      rw [List.foldl_cons] at h
      rcases (ih (ffeStep flowdirs elevations acc d) c).1 h with h1 | ⟨hm, h2⟩
      · unfold ffeStep at h1
        by_cases hnd : flowdirs.get d.1 d.2 = flowdirs.noData
        · rw [if_pos hnd] at h1; exact Or.inl h1
        · rw [if_neg hnd] at h1
          rcases hscan : scanNbrs flowdirs elevations d.1 d.2 offsets with _ | b
          · rw [hscan] at h1; exact Or.inl h1
          · cases b
            · rw [hscan] at h1; exact Or.inl h1
            · rw [hscan] at h1
              simp only [List.mem_append, List.mem_singleton] at h1
              rcases h1 with h1 | rfl
              · exact Or.inl h1
              · exact Or.inr ⟨List.mem_cons_self _ _, hnd, hscan⟩
      · exact Or.inr ⟨List.mem_cons_of_mem _ hm, h2⟩
    · intro h
      rw [List.foldl_cons] at h
      rcases (ih (ffeStep flowdirs elevations acc d) c).2 h with h1 | ⟨hm, h2⟩
      · unfold ffeStep at h1
        by_cases hnd : flowdirs.get d.1 d.2 = flowdirs.noData
        · rw [if_pos hnd] at h1; exact Or.inl h1
        · rw [if_neg hnd] at h1
          rcases hscan : scanNbrs flowdirs elevations d.1 d.2 offsets with _ | b
          · rw [hscan] at h1; exact Or.inl h1
          · cases b
            · rw [hscan] at h1
              simp only [List.mem_append, List.mem_singleton] at h1
              rcases h1 with h1 | rfl
              · exact Or.inl h1
              · exact Or.inr ⟨List.mem_cons_self _ _, hnd, hscan⟩
            · rw [hscan] at h1; exact Or.inl h1
      · exact Or.inr ⟨List.mem_cons_of_mem _ hm, h2⟩

/-- Every cell in `low_edges` is an in-scan cell with a non-no-data flow
direction whose neighbour scan returned the low classification. -/
theorem low_edges_mem {flowdirs elevations : Grid} {c : Cell}
    (hc : c ∈ (find_flat_edges flowdirs elevations).1) :
    c ∈ cellList flowdirs.width flowdirs.height ∧
    flowdirs.get c.1 c.2 ≠ flowdirs.noData ∧
    scanNbrs flowdirs elevations c.1 c.2 offsets = some true := by
  rcases (ffe_foldl_mem flowdirs elevations _ ([], []) c).1 hc with h | h
  · exact absurd h (List.not_mem_nil c)
  · exact h

/-- Every cell in `high_edges` is an in-scan cell with a non-no-data flow
direction whose neighbour scan returned the high classification. -/
theorem high_edges_mem {flowdirs elevations : Grid} {c : Cell}
    (hc : c ∈ (find_flat_edges flowdirs elevations).2) :
    c ∈ cellList flowdirs.width flowdirs.height ∧
    flowdirs.get c.1 c.2 ≠ flowdirs.noData ∧
    scanNbrs flowdirs elevations c.1 c.2 offsets = some false := by
  rcases (ffe_foldl_mem flowdirs elevations _ ([], []) c).2 hc with h | h
  · exact absurd h (List.not_mem_nil c)
  · exact h

theorem low_edges_in_grid {flowdirs elevations : Grid} {c : Cell}
    (hc : c ∈ (find_flat_edges flowdirs elevations).1) :
    0 ≤ c.1 ∧ c.1 < (flowdirs.width : Int) ∧ 0 ≤ c.2 ∧ c.2 < (flowdirs.height : Int) :=
  cellList_mem (low_edges_mem hc).1

theorem low_edges_not_no_flow {flowdirs elevations : Grid} {c : Cell}
    (hc : c ∈ (find_flat_edges flowdirs elevations).1) :
    flowdirs.get c.1 c.2 ≠ NO_FLOW :=
  (scanNbrs_some_true (low_edges_mem hc).2.2).1

theorem high_edges_no_flow {flowdirs elevations : Grid} {c : Cell}
    (hc : c ∈ (find_flat_edges flowdirs elevations).2) :
    flowdirs.get c.1 c.2 = NO_FLOW :=
  (scanNbrs_some_false (high_edges_mem hc).2.2).1

/-- Edge finding reads the elevation grid only through its read function:
its recorded dimensions (and no-data code) never enter the scan. -/
theorem scanNbrs_congr_get (flowdirs : Grid) {elevations elevations2 : Grid}
    (hget : elevations.get = elevations2.get) (x y : Int) :
    ∀ os : List Cell,
      scanNbrs flowdirs elevations x y os = scanNbrs flowdirs elevations2 x y os := by
  intro os
  induction os with
  | nil => rfl
  | cons o rest ih => rw [scanNbrs, scanNbrs, hget, ih]

theorem ffeStep_congr_get (flowdirs : Grid) {elevations elevations2 : Grid}
    (hget : elevations.get = elevations2.get) :
    ffeStep flowdirs elevations = ffeStep flowdirs elevations2 := by
  funext acc c
  unfold ffeStep
  rw [scanNbrs_congr_get flowdirs hget]

/-! ## Claim C1 -/

/-- C1, counterexample: it is not the case that every cell added to
`lowEdges` is a flat cell.  On the single-row input the cell `(0,0)` — whose
flow direction is defined — is the one pushed onto `low_edges`. -/
theorem C1_counterexample :
    ¬ (∀ c ∈ (find_flat_edges fdSR elSR).1, fdSR.get c.1 c.2 = NO_FLOW) := by
  decide

/-- C1 (amended): every cell added to `low_edges` by the edge-finding pass
has a *defined* flow direction (neither `NO_FLOW` nor the no-data code) and
has an in-grid 8-neighbour that is `NO_FLOW` (and not no-data) at the same
elevation; in particular, no `NO_FLOW` cell is ever added to `low_edges`. -/
theorem C1_low_edges_defined_flow (flowdirs elevations : Grid) (c : Cell)
    (hc : c ∈ (find_flat_edges flowdirs elevations).1) :
    flowdirs.get c.1 c.2 ≠ NO_FLOW ∧ flowdirs.get c.1 c.2 ≠ flowdirs.noData ∧
    ∃ o ∈ offsets,
      inGrid (c.1 + o.1) (c.2 + o.2) flowdirs.width flowdirs.height = true ∧
      flowdirs.get (c.1 + o.1) (c.2 + o.2) = NO_FLOW ∧
      flowdirs.get (c.1 + o.1) (c.2 + o.2) ≠ flowdirs.noData ∧
      elevations.get (c.1 + o.1) (c.2 + o.2) = elevations.get c.1 c.2 := by
  obtain ⟨_, hnd, hscan⟩ := low_edges_mem hc
  obtain ⟨h1, o, ho, h2, h3, h4, h5⟩ := scanNbrs_some_true hscan
  exact ⟨h1, hnd, o, ho, h2, h4, h3, h5⟩

/-- Witness for `C1_low_edges_defined_flow` at the single-row input. -/
theorem C1_witness :
    ((0, 0) ∈ (find_flat_edges fdSR elSR).1) ∧
    (fdSR.get 0 0 ≠ NO_FLOW ∧ fdSR.get 0 0 ≠ fdSR.noData ∧
      ∃ o ∈ offsets,
        inGrid (0 + o.1) (0 + o.2) fdSR.width fdSR.height = true ∧
        fdSR.get (0 + o.1) (0 + o.2) = NO_FLOW ∧
        fdSR.get (0 + o.1) (0 + o.2) ≠ fdSR.noData ∧
        elSR.get (0 + o.1) (0 + o.2) = elSR.get 0 0) :=
  ⟨by decide, C1_low_edges_defined_flow fdSR elSR (0, 0) (by decide)⟩

/-! ## Claim C3 -/

/-- C3, counterexample: the spec's expectations for the single-row scenario
fail on the code — cell `(1,0)` is not a low edge (the defined-flow cell
`(0,0)` is), and neither the claimed `towards` distances nor the claimed
mask values occur. -/
theorem C3_counterexample :
    ¬ ((1, 0) ∈ (resolve_flats_barnes elSR fdSR).lowEdges ∧
      (resolve_flats_barnes elSR fdSR).labels (2, 0) =
        (resolve_flats_barnes elSR fdSR).labels (1, 0) ∧
      (resolve_flats_barnes elSR fdSR).labels (1, 0) ≠ -1 ∧
      (resolve_flats_barnes elSR fdSR).towards (1, 0) = 1 ∧
      (resolve_flats_barnes elSR fdSR).towards (2, 0) = 2 ∧
      (resolve_flats_barnes elSR fdSR).mask (1, 0) = 0 ∧
      (resolve_flats_barnes elSR fdSR).mask (2, 0) = 2) := by
  decide

/-- C3 (amended): on the single-row input `[5,5,5]` with flow directions
`[defined, NO_FLOW, NO_FLOW]`, the pipeline finds the *defined-flow* cell 0
to be the single low edge; cells 0, 1 and 2 are all labeled into region 0;
the `towards` distances are cell0 = 1, cell1 = 2, cell2 = 3; `away` is zero
throughout; and the mask is cell0 = 0, cell1 = 2, cell2 = 4 — strictly
decreasing from cell 2 towards the low edge. -/
theorem C3_single_row_amended :
    (resolve_flats_barnes elSR fdSR).lowEdges = [(0, 0)] ∧
    (resolve_flats_barnes elSR fdSR).labels (0, 0) = 0 ∧
    (resolve_flats_barnes elSR fdSR).labels (1, 0) = 0 ∧
    (resolve_flats_barnes elSR fdSR).labels (2, 0) = 0 ∧
    (resolve_flats_barnes elSR fdSR).towards (0, 0) = 1 ∧
    (resolve_flats_barnes elSR fdSR).towards (1, 0) = 2 ∧
    (resolve_flats_barnes elSR fdSR).towards (2, 0) = 3 ∧
    (resolve_flats_barnes elSR fdSR).away (1, 0) = 0 ∧
    (resolve_flats_barnes elSR fdSR).away (2, 0) = 0 ∧
    (resolve_flats_barnes elSR fdSR).mask (0, 0) = 0 ∧
    (resolve_flats_barnes elSR fdSR).mask (1, 0) = 2 ∧
    (resolve_flats_barnes elSR fdSR).mask (2, 0) = 4 := by
  decide

/-! ## Claim C7 -/

/-- C7, counterexample: with mismatched dimensions (a `1 × 1` elevation grid
against a `3 × 1` flow-direction grid) the run does not fail before the
traversal — edge finding runs and finds a low edge, and the pipeline
completes, writing a mask value and reporting an ordinary outcome. -/
theorem C7_counterexample :
    elOne.width ≠ fdSR.width ∧
    (resolve_flats_barnes elOne fdSR).lowEdges = [(0, 0)] ∧
    (resolve_flats_barnes elOne fdSR).mask (0, 0) = 0 ∧
    (resolve_flats_barnes elOne fdSR).report = Report.resolvedAll := by
  decide

/-- C7 (amended): no dimension validation exists.  The edge-finding
traversal begins and completes regardless of the elevation grid's recorded
dimensions: `find_flat_edges` depends on the elevation grid only through its
read function, so changing its recorded width/height (in particular to
mismatched values) cannot trigger any failure or change the traversal. -/
theorem C7_no_dimension_check (flowdirs : Grid) (elevations elevations2 : Grid)
    (hget : elevations.get = elevations2.get) :
    find_flat_edges flowdirs elevations = find_flat_edges flowdirs elevations2 := by
  unfold find_flat_edges
  rw [ffeStep_congr_get flowdirs hget]

/-- Witness for `C7_no_dimension_check`: shrinking the recorded width of the
elevation grid to a mismatched value leaves edge finding unchanged. -/
theorem C7_witness :
    (elSR.get = ({ elSR with width := 1 } : Grid).get) ∧
    find_flat_edges fdSR elSR = find_flat_edges fdSR { elSR with width := 1 } :=
  ⟨rfl, C7_no_dimension_check fdSR elSR { elSR with width := 1 } rfl⟩

/-! ## Claim C8 -/

/-- C8: if the edge-finding pass yields zero low edges, the orchestrator
returns immediately: the mask and labels grids are entirely at the sentinel
`-1`, the region count is zero, and the report is "flats without outlets"
when high edges exist and "no flats" otherwise. -/
theorem C8_no_low_edges (elevations flowdirs : Grid) (c : Cell)
    (hlow : (find_flat_edges flowdirs elevations).1 = []) :
    (resolve_flats_barnes elevations flowdirs).mask c = -1 ∧
    (resolve_flats_barnes elevations flowdirs).labels c = -1 ∧
    (resolve_flats_barnes elevations flowdirs).groupCount = 0 ∧
    (resolve_flats_barnes elevations flowdirs).report =
      (if (find_flat_edges flowdirs elevations).2 = [] then Report.noFlats
        else Report.flatsWithoutOutlets) := by
  unfold resolve_flats_barnes
  simp only [hlow, List.isEmpty_nil, if_true]
  refine ⟨trivial, trivial, trivial, ?_⟩
  cases hh : (find_flat_edges flowdirs elevations).2 with
  | nil => simp [hh]
  | cons d rest => simp [hh]

/-- Witness for `C8_no_low_edges` on a `1 × 1` grid whose only cell has a
defined flow direction (no flats at all). -/
theorem C8_witness :
    ((find_flat_edges fdNF elNF).1 = []) ∧
    ((resolve_flats_barnes elNF fdNF).mask (0, 0) = -1 ∧
      (resolve_flats_barnes elNF fdNF).labels (0, 0) = -1 ∧
      (resolve_flats_barnes elNF fdNF).groupCount = 0 ∧
      (resolve_flats_barnes elNF fdNF).report =
        (if (find_flat_edges fdNF elNF).2 = [] then Report.noFlats
          else Report.flatsWithoutOutlets)) :=
  ⟨by decide, C8_no_low_edges elNF fdNF (0, 0) (by decide)⟩

/-! ## Facts about `CombineGradients` -/

/-- Once a cell's `towards` entry has been consumed (set to `-1`, line 143),
it stays `-1`: the loop writes nothing else into `towards`. -/
theorem cg_towards_stable (elevations : Grid) (away : Cell → Int) (fh : Int → Int)
    (labels : Cell → Int) (c : Cell) (n : Nat) (s : CGState)
    (hs : s.towards c = -1) :
    (iterRun cgDone (cgStep elevations away fh labels) n s).towards c = -1 := by
  refine iterRun_inv (P := fun t => t.towards c = -1) ?_ n s hs
  intro t ht _
  unfold cgStep
  cases hq : t.queue with
  | nil => exact ht
  | cons d rest =>
    by_cases hd : t.towards d = -1
    · simp only [hq, hd, if_pos rfl]
      exact ht
    · simp only [hq, if_neg hd]
      by_cases hcd : c = d
      · subst hcd; exact absurd ht hd
      · show upd t.towards d (-1) c = -1
        rw [upd_other _ _ _ _ hcd]; exact ht

/-- Per-cell characterisation of the `CombineGradients` loop, relative to
the state it starts from: a cell whose `towards` entry ends up consumed and
was positive receives exactly the combined value of lines 137–140; every
other cell's mask entry is untouched. -/
theorem cg_mask_char (elevations : Grid) (away : Cell → Int) (fh : Int → Int)
    (labels : Cell → Int) :
    ∀ (n : Nat) (s : CGState) (c : Cell),
      (((iterRun cgDone (cgStep elevations away fh labels) n s).towards c = -1 ∧
          0 < s.towards c) →
        (iterRun cgDone (cgStep elevations away fh labels) n s).mask c =
          cgMaskValue away fh labels (s.towards c) c) ∧
      (¬ ((iterRun cgDone (cgStep elevations away fh labels) n s).towards c = -1 ∧
          0 < s.towards c) →
        (iterRun cgDone (cgStep elevations away fh labels) n s).mask c = s.mask c) := by
  intro n
  induction n with
  | zero =>
    intro s c
    constructor
    · rintro ⟨h1, h2⟩
      rw [iterRun_zero] at h1
      omega
    · intro _; rfl
  | succ n ih =>
    intro s c
    cases hdone : cgDone s with
    | true =>
      rw [iterRun_succ]
      simp only [hdone, if_true]
      constructor
      · rintro ⟨h1, h2⟩; omega
      · intro _; trivial
    | false =>
      have hrun : iterRun cgDone (cgStep elevations away fh labels) (n + 1) s =
          iterRun cgDone (cgStep elevations away fh labels) n
            (cgStep elevations away fh labels s) := by
        rw [iterRun_succ, hdone]; simp
      cases hq : s.queue with
      | nil => exact absurd hdone (by simp [cgDone, hq])
      | cons d rest =>
        by_cases hd : s.towards d = -1
        · -- skip branch (line 129)
          have hstep : cgStep elevations away fh labels s =
              { towards := s.towards, mask := s.mask, queue := rest } := by
            unfold cgStep; simp [hq, hd]
          rw [hrun, hstep]
          exact ih { towards := s.towards, mask := s.mask, queue := rest } c
        · -- processing branch
          have hstep : cgStep elevations away fh labels s =
              { towards := upd s.towards d (-1),
                mask := if s.towards d > 0 then
                    upd s.mask d (cgMaskValue away fh labels (s.towards d) d)
                  else s.mask,
                queue := rest ++ cgPush elevations d } := by
            unfold cgStep; simp only [hq, if_neg hd]
          by_cases hcd : c = d
          · subst hcd
            have htw' : (cgStep elevations away fh labels s).towards c = -1 := by
              rw [hstep]; exact upd_same _ _ _
            have hrtow : (iterRun cgDone (cgStep elevations away fh labels) (n + 1) s).towards c
                = -1 := by
              rw [hrun]
              exact cg_towards_stable elevations away fh labels c n _ htw'
            have hrmask : (iterRun cgDone (cgStep elevations away fh labels) (n + 1) s).mask c
                = (cgStep elevations away fh labels s).mask c := by
              rw [hrun]
              refine (ih (cgStep elevations away fh labels s) c).2 ?_
              rintro ⟨_, hpos⟩
              rw [htw'] at hpos
              omega
            constructor
            · rintro ⟨_, hpos⟩
              rw [hrmask, hstep]
              simp only [if_pos hpos]
              exact upd_same _ _ _
            · intro hneg
              have hpos : ¬ 0 < s.towards c := fun hp => hneg ⟨hrtow, hp⟩
              rw [hrmask, hstep]
              simp only [if_neg hpos]
          · have htw' : (cgStep elevations away fh labels s).towards c = s.towards c := by
              rw [hstep]; exact upd_other _ _ _ _ hcd
            have hmk' : (cgStep elevations away fh labels s).mask c = s.mask c := by
              rw [hstep]
              by_cases hp : s.towards d > 0
              · simp only [if_pos hp]; exact upd_other _ _ _ _ hcd
              · simp only [if_neg hp]
            constructor
            · rintro ⟨h1, h2⟩
              rw [hrun] at h1 ⊢
              have := (ih (cgStep elevations away fh labels s) c).1
                ⟨h1, by rw [htw']; exact h2⟩
              rw [htw'] at this
              exact this
            · intro hneg
              rw [hrun]
              have := (ih (cgStep elevations away fh labels s) c).2
                (by rw [htw']; intro hc2; exact hneg (by rw [hrun]; exact hc2))
              rw [this, hmk']

/-! ## Claim C4 -/

/-- C4: per-cell outcome of `CombineGradients` on a mask entry at the
sentinel.  A visit that processes a cell consumes its `towards` entry
(leaves `-1`); for such a cell with `towards > 0` the mask is set to
`2*(towards - 1)`, plus `flat_height[labels(cell)] - away(cell) + 1` exactly
when `away(cell) > 0`; in every other case — in particular a processed cell
with `towards = 0` — the mask entry is left at the sentinel `-1`. -/
theorem C4_gradient_combination (elevations : Grid) (towards away mask0 : Cell → Int)
    (edge : List Cell) (fh : Int → Int) (labels : Cell → Int) (c : Cell)
    (hm : mask0 c = -1) :
    ((CombineGradients elevations towards away mask0 edge fh labels).towards c = -1 ∧
        0 < towards c →
      (CombineGradients elevations towards away mask0 edge fh labels).mask c =
        2 * (towards c - 1) +
          (if 0 < away c then fh (labels c) - away c + 1 else 0)) ∧
    (¬ ((CombineGradients elevations towards away mask0 edge fh labels).towards c = -1 ∧
        0 < towards c) →
      (CombineGradients elevations towards away mask0 edge fh labels).mask c = -1) := by
  have h := cg_mask_char elevations away fh labels
    (cgFuel elevations.width elevations.height edge.length)
    { towards := towards, mask := mask0, queue := edge } c
  unfold CombineGradients
  constructor
  · intro hc
    have := h.1 hc
    rw [this]
    rfl
  · intro hc
    have := h.2 hc
    rw [this]
    exact hm

def twC4 : Cell → Int := fun c =>
  if c = (0, 0) then 1 else if c = (1, 0) then 2 else if c = (2, 0) then 3 else 0

def awC4 : Cell → Int := fun c => if c = (1, 0) then 2 else if c = (2, 0) then 1 else 0

def mkC4 : Cell → Int := fun _ => -1

def lbC4 : Cell → Int := fun _ => 0

def fhC4 : Int → Int := fun _ => 2

/-- Witness for `C4_gradient_combination` on the single-row elevations with
a hand-made pair of incrementation grids. -/
theorem C4_witness :
    (mkC4 (1, 0) = -1) ∧
    (((CombineGradients elSR twC4 awC4 mkC4 [(0, 0)] fhC4 lbC4).towards (1, 0) = -1 ∧
        0 < twC4 (1, 0) →
      (CombineGradients elSR twC4 awC4 mkC4 [(0, 0)] fhC4 lbC4).mask (1, 0) =
        2 * (twC4 (1, 0) - 1) +
          (if 0 < awC4 (1, 0) then fhC4 (lbC4 (1, 0)) - awC4 (1, 0) + 1 else 0)) ∧
    (¬ ((CombineGradients elSR twC4 awC4 mkC4 [(0, 0)] fhC4 lbC4).towards (1, 0) = -1 ∧
        0 < twC4 (1, 0)) →
      (CombineGradients elSR twC4 awC4 mkC4 [(0, 0)] fhC4 lbC4).mask (1, 0) = -1)) :=
  ⟨rfl, C4_gradient_combination elSR twC4 awC4 mkC4 [(0, 0)] fhC4 lbC4 (1, 0) rfl⟩

/-! ## Reachability along equal-elevation 8-connected paths -/

/-- `b` is one of the eight neighbours of `a`. -/
def adjacent (a b : Cell) : Prop := ∃ o ∈ offsets, b = (a.1 + o.1, a.2 + o.2)

/-- One step of an equal-elevation walk bounded by a `w × h` grid: move to
an in-grid 8-neighbour of the same elevation. -/
def reachStep (elevations : Grid) (w h : Nat) (a b : Cell) : Prop :=
  adjacent a b ∧ inGrid b.1 b.2 w h = true ∧
    elevations.get b.1 b.2 = elevations.get a.1 a.2

/-- Reachability along equal-elevation 8-connected in-grid paths. -/
def EqReach (elevations : Grid) (w h : Nat) (a b : Cell) : Prop :=
  Relation.ReflTransGen (reachStep elevations w h) a b

theorem eqReach_elev {elevations : Grid} {w h : Nat} {a b : Cell}
    (hr : EqReach elevations w h a b) :
    elevations.get b.1 b.2 = elevations.get a.1 a.2 := by
  induction hr with
  | refl => rfl
  | tail _ hstep ih => rw [hstep.2.2, ih]

theorem eqReach_inGrid {elevations : Grid} {w h : Nat} {a b : Cell}
    (hr : EqReach elevations w h a b) (ha : inGrid a.1 a.2 w h = true) :
    inGrid b.1 b.2 w h = true := by
  induction hr with
  | refl => exact ha
  | tail _ hstep _ => exact hstep.2.1

/-- Adjacency is symmetric: the offset table is closed under negation. -/
theorem adjacent_symm {a b : Cell} (h : adjacent a b) : adjacent b a := by
  obtain ⟨o, ho, rfl⟩ := h
  refine ⟨(-o.1, -o.2), ?_, ?_⟩
  · fin_cases ho <;> decide
  · simp

/-- An equal-elevation walk whose start is in grid can be reversed. -/
theorem eqReach_symm {elevations : Grid} {w h : Nat} {a b : Cell}
    (ha : inGrid a.1 a.2 w h = true) (hr : EqReach elevations w h a b) :
    EqReach elevations w h b a := by
  induction hr with
  | refl => exact Relation.ReflTransGen.refl
  | tail hr' hstep ih =>
    have hx := eqReach_inGrid hr' ha
    exact Relation.ReflTransGen.trans
      (Relation.ReflTransGen.single ⟨adjacent_symm hstep.1, hx, by rw [hstep.2.2]⟩) ih

theorem eqReach_trans {elevations : Grid} {w h : Nat} {a b c : Cell}
    (h1 : EqReach elevations w h a b) (h2 : EqReach elevations w h b c) :
    EqReach elevations w h a c :=
  Relation.ReflTransGen.trans h1 h2

/-- Membership in the `CombineGradients` push list is an equal-elevation
step (bounded by the elevation grid's dimensions). -/
theorem cgPush_mem {elevations : Grid} {c d : Cell} (hd : d ∈ cgPush elevations c) :
    reachStep elevations elevations.width elevations.height c d := by
  unfold cgPush at hd
  rw [List.mem_filterMap] at hd
  obtain ⟨o, ho, hcond⟩ := hd
  by_cases hc : inGrid (c.1 + o.1) (c.2 + o.2) elevations.width elevations.height = true ∧
      elevations.get (c.1 + o.1) (c.2 + o.2) = elevations.get c.1 c.2
  · rw [if_pos hc] at hcond
    obtain rfl := Option.some_injective _ hcond
    exact ⟨⟨o, ho, rfl⟩, hc.1, hc.2⟩
  · rw [if_neg hc] at hcond
    exact absurd hcond (by simp)

/-- Soundness of the `CombineGradients` walk: a mask entry can change only
at a cell reachable (along equal-elevation in-grid paths) from some cell of
the current queue. -/
theorem cg_mask_reach (elevations : Grid) (away : Cell → Int) (fh : Int → Int)
    (labels : Cell → Int) :
    ∀ (n : Nat) (s : CGState) (c : Cell),
      (iterRun cgDone (cgStep elevations away fh labels) n s).mask c ≠ s.mask c →
      ∃ d ∈ s.queue, EqReach elevations elevations.width elevations.height d c := by
  intro n
  induction n with
  | zero => intro s c hc; exact absurd rfl hc
  | succ n ih =>
    intro s c hc
    cases hdone : cgDone s with
    | true => rw [iterRun_of_done (n + 1) hdone] at hc; exact absurd rfl hc
    | false =>
      have hrun : iterRun cgDone (cgStep elevations away fh labels) (n + 1) s =
          iterRun cgDone (cgStep elevations away fh labels) n
            (cgStep elevations away fh labels s) := by
        rw [iterRun_succ, hdone]; simp
      rw [hrun] at hc
      cases hq : s.queue with
      | nil => exact absurd hdone (by simp [cgDone, hq])
      | cons d rest =>
        by_cases hd : s.towards d = -1
        · have hstep : cgStep elevations away fh labels s =
              { towards := s.towards, mask := s.mask, queue := rest } := by
            unfold cgStep; simp [hq, hd]
          rw [hstep] at hc
          obtain ⟨q, hqmem, hqr⟩ := ih _ c hc
          exact ⟨q, List.mem_cons_of_mem _ hqmem, hqr⟩
        · have hstep : cgStep elevations away fh labels s =
              { towards := upd s.towards d (-1),
                mask := if s.towards d > 0 then
                    upd s.mask d (cgMaskValue away fh labels (s.towards d) d)
                  else s.mask,
                queue := rest ++ cgPush elevations d } := by
            unfold cgStep; simp only [hq, if_neg hd]
          by_cases hmc : (cgStep elevations away fh labels s).mask c = s.mask c
          · rw [← hmc] at hc
            obtain ⟨q, hqmem, hqr⟩ := ih _ c hc
            rw [hstep] at hqmem
            simp only [List.mem_append] at hqmem
            rcases hqmem with hqm | hqm
            · exact ⟨q, List.mem_cons_of_mem _ hqm, hqr⟩
            · refine ⟨d, List.mem_cons_self _ _, ?_⟩
              exact Relation.ReflTransGen.trans
                (Relation.ReflTransGen.single (cgPush_mem hqm)) hqr
          · have hcd : c = d := by
              by_contra hne
              apply hmc
              rw [hstep]
              by_cases hp : s.towards d > 0
              · simp only [hp, if_pos]; exact upd_other _ _ _ _ hne
              · simp only [hp, if_neg, ite_false]
            subst hcd
            exact ⟨c, List.mem_cons_self _ _, Relation.ReflTransGen.refl⟩

/-! ## Claim C6 -/

/-- C6, counterexample: a non-flat cell can receive a non-sentinel mask
value — on the single-row input the defined-flow cell `(0,0)` ends with mask
`0`. -/
theorem C6_counterexample :
    fdSR.get 0 0 ≠ NO_FLOW ∧ (resolve_flats_barnes elSR fdSR).mask (0, 0) = 0 := by
  decide

/-- C6 (amended): only cells reachable from some cell of the low-edge queue
along an equal-elevation 8-connected in-grid walk (the walk re-traversed by
`CombineGradients`, which ignores flow directions — so the low-edge cells
themselves, which have defined flow directions, are included) can hold a
non-sentinel value in the final mask; every other cell holds `-1`. -/
theorem C6_mask_sentinel (elevations flowdirs : Grid) (c : Cell)
    (hc : (resolve_flats_barnes elevations flowdirs).mask c ≠ -1) :
    ∃ d ∈ (resolve_flats_barnes elevations flowdirs).lowEdges,
      EqReach elevations elevations.width elevations.height d c := by
  unfold resolve_flats_barnes at hc ⊢
  by_cases hemp : (find_flat_edges flowdirs elevations).1.isEmpty = true
  · rw [if_pos hemp] at hc
    exact absurd rfl hc
  · rw [if_neg hemp] at hc ⊢
    have hc2 : (resolveCG elevations flowdirs).mask c ≠ (fun _ => (-1 : Int)) c := hc
    unfold resolveCG CombineGradients at hc2
    exact cg_mask_reach elevations _ _ _ _ _ c hc2

/-- Witness for `C6_mask_sentinel` at the single-row input, cell `(2,0)`. -/
theorem C6_witness :
    ((resolve_flats_barnes elSR fdSR).mask (2, 0) ≠ -1) ∧
    (∃ d ∈ (resolve_flats_barnes elSR fdSR).lowEdges,
      EqReach elSR elSR.width elSR.height d (2, 0)) :=
  ⟨by decide, C6_mask_sentinel elSR fdSR (2, 0) (by decide)⟩

/-! ## Facts about `BuildGradient` -/

theorem iterRun_add {σ : Type} (done : σ → Bool) (step : σ → σ) :
    ∀ (m n : Nat) (s : σ),
      iterRun done step (m + n) s = iterRun done step n (iterRun done step m s) := by
  intro m
  induction m with
  | zero => intro n s; rw [Nat.zero_add]; rfl
  | succ m ih =>
    intro n s
    cases hdone : done s with
    | true =>
      rw [iterRun_of_done (m + 1) hdone, iterRun_of_done (m + 1 + n) hdone]
      exact (iterRun_of_done n hdone).symm
    | false =>
      have h1 : m + 1 + n = (m + n) + 1 := by omega
      rw [h1, iterRun_succ, iterRun_succ, hdone]
      simp only [Bool.false_eq_true, if_false]
      exact ih n (step s)

theorem filter_length_le {α : Type} (p q : α → Bool) :
    ∀ (L : List α), (∀ d ∈ L, q d = true → p d = true) →
      (L.filter q).length ≤ (L.filter p).length := by
  intro L
  induction L with
  | nil => intro _; simp
  | cons a rest ih =>
    intro hpq
    have ihr := ih fun d hd => hpq d (List.mem_cons_of_mem _ hd)
    rw [List.filter_cons, List.filter_cons]
    cases hqa : q a with
    | true =>
      have hpa := hpq a (List.mem_cons_self _ _) hqa
      simp [hqa, hpa]
      omega
    | false =>
      cases hpa : p a with
      | true => simp [hqa, hpa]; omega
      | false => simp [hqa, hpa]; exact ihr

theorem filter_length_lt {α : Type} (p q : α → Bool) (c : α)
    (hpc : p c = true) (hqc : q c = false)
    (hother : ∀ d, d ≠ c → q d = p d) :
    ∀ (L : List α), c ∈ L → (L.filter q).length < (L.filter p).length := by
  intro L
  induction L with
  | nil => intro hc; exact absurd hc (List.not_mem_nil c)
  | cons a rest ih =>
    intro hc
    rw [List.filter_cons, List.filter_cons]
    by_cases hac : a = c
    · subst hac
      have hle : (rest.filter q).length ≤ (rest.filter p).length := by
        refine filter_length_le p q rest ?_
        intro d _ hqd
        by_cases hdc : d = a
        · subst hdc; rw [hqc] at hqd; cases hqd
        · rw [← hother d hdc]; exact hqd
      simp [hpc, hqc]
      omega
    · have hcr : c ∈ rest := by
        rcases List.mem_cons.mp hc with h | h
        · exact absurd h.symm hac
        · exact h
      have ihs := ih hcr
      rw [hother a hac]
      cases hpa : p a with
      | true => simp [hpa]; omega
      | false => simp [hpa]; exact ihs

theorem cellList_mem_of_inGrid {w h : Nat} {c : Cell}
    (hc : inGrid c.1 c.2 w h = true) : c ∈ cellList w h := by
  rw [inGrid_iff] at hc
  unfold cellList
  rw [List.mem_flatMap]
  refine ⟨c.1.toNat, List.mem_range.mpr (by omega), ?_⟩
  rw [List.mem_map]
  refine ⟨c.2.toNat, List.mem_range.mpr (by omega), ?_⟩
  rw [Prod.ext_iff]
  constructor
  · show Int.ofNat c.1.toNat = c.1
    rw [Int.ofNat_eq_natCast, Int.toNat_of_nonneg hc.1]
  · show Int.ofNat c.2.toNat = c.2
    rw [Int.ofNat_eq_natCast, Int.toNat_of_nonneg hc.2.2.1]

theorem cellList_length (w h : Nat) : (cellList w h).length = w * h := by
  unfold cellList
  induction w with
  | zero => simp
  | succ w ih =>
    rw [List.range_succ, List.flatMap_append, List.length_append, ih]
    simp [Nat.succ_mul]

/-- Membership in the `BuildGradient` push list: an in-grid (elevation-grid
bounds) equal-elevation `NO_FLOW` neighbour. -/
theorem bgPush_mem {elevations flowdirs : Grid} {c d : Cell}
    (hd : d ∈ bgPush elevations flowdirs c) :
    inGrid d.1 d.2 elevations.width elevations.height = true ∧
    elevations.get d.1 d.2 = elevations.get c.1 c.2 ∧
    flowdirs.get d.1 d.2 = NO_FLOW ∧ adjacent c d := by
  unfold bgPush at hd
  rw [List.mem_filterMap] at hd
  obtain ⟨o, ho, hcond⟩ := hd
  by_cases hc : inGrid (c.1 + o.1) (c.2 + o.2) elevations.width elevations.height = true ∧
      elevations.get (c.1 + o.1) (c.2 + o.2) = elevations.get c.1 c.2 ∧
      flowdirs.get (c.1 + o.1) (c.2 + o.2) = NO_FLOW
  · rw [if_pos hc] at hcond
    obtain rfl := Option.some_injective _ hcond
    exact ⟨hc.1, hc.2.1, hc.2.2, o, ho, rfl⟩
  · rw [if_neg hc] at hcond
    exact absurd hcond (by simp)

/-- All cells of a queue segment lie inside the elevation grid. -/
def inGridCells (elevations : Grid) (L : List Cell) : Prop :=
  ∀ c ∈ L, inGrid c.1 c.2 elevations.width elevations.height = true

theorem inGrid_x_nonneg {c : Cell} {w h : Nat}
    (hc : inGrid c.1 c.2 w h = true) : c.1 ≠ -1 := by
  rw [inGrid_iff] at hc
  omega

/-- The structural invariant of the `BuildGradient` loop: the queue is some
in-grid cells, then exactly one iteration marker, then more in-grid cells;
the layer counter is at least `1`; the incrementation values lie between `0`
and the layer counter. -/
structure BGInv (elevations : Grid) (s : BGState) : Prop where
  decomp : ∃ A B, s.queue = A ++ markerCell :: B ∧
    inGridCells elevations A ∧ inGridCells elevations B
  loops_pos : 1 ≤ s.loops
  incr_le : ∀ c, 0 ≤ s.incr c ∧ s.incr c ≤ s.loops

theorem bgStep_marker {elevations flowdirs : Grid} {labels : Cell → Int}
    {s : BGState} {c : Cell} {rest : List Cell}
    (hq : s.queue = c :: rest) (hc : c.1 = -1) :
    bgStep elevations flowdirs labels s =
      { incr := s.incr, fh := s.fh, queue := rest ++ [markerCell],
        loops := s.loops + 1 } := by
  unfold bgStep
  rw [hq]
  simp [hc]

theorem bgStep_skip {elevations flowdirs : Grid} {labels : Cell → Int}
    {s : BGState} {c : Cell} {rest : List Cell}
    (hq : s.queue = c :: rest) (hc : ¬ c.1 = -1) (hpos : s.incr c > 0) :
    bgStep elevations flowdirs labels s =
      { incr := s.incr, fh := s.fh, queue := rest, loops := s.loops } := by
  unfold bgStep
  rw [hq]
  simp [hc, hpos]

theorem bgStep_assign {elevations flowdirs : Grid} {labels : Cell → Int}
    {s : BGState} {c : Cell} {rest : List Cell}
    (hq : s.queue = c :: rest) (hc : ¬ c.1 = -1) (hpos : ¬ s.incr c > 0) :
    bgStep elevations flowdirs labels s =
      { incr := upd s.incr c s.loops, fh := updI s.fh (labels c) s.loops,
        queue := rest ++ bgPush elevations flowdirs c, loops := s.loops } := by
  unfold bgStep
  rw [hq]
  simp [hc, hpos]

/-- Decomposition of a nonempty queue under the invariant: the head is
either the marker (with nothing before it) or an in-grid cell of the first
segment. -/
theorem bg_head_cases {elevations : Grid} {s : BGState} {A B : List Cell}
    {c : Cell} {rest : List Cell}
    (hQ : s.queue = A ++ markerCell :: B)
    (hA : inGridCells elevations A) (hq : s.queue = c :: rest) :
    (c = markerCell ∧ A = [] ∧ rest = B) ∨
    (inGrid c.1 c.2 elevations.width elevations.height = true ∧
      ∃ A2, A = c :: A2 ∧ rest = A2 ++ markerCell :: B) := by
  cases A with
  | nil =>
    left
    rw [hQ] at hq
    simp only [List.nil_append, List.cons.injEq] at hq
    exact ⟨hq.1.symm, rfl, hq.2.symm⟩
  | cons a A2 =>
    right
    rw [hQ] at hq
    simp only [List.cons_append, List.cons.injEq] at hq
    obtain ⟨hac, hrest⟩ := hq
    subst hac
    exact ⟨hA a (List.mem_cons_self _ _), A2, rfl, hrest.symm⟩

theorem bgStep_nil {elevations flowdirs : Grid} {labels : Cell → Int} {s : BGState}
    (hq : s.queue = []) : bgStep elevations flowdirs labels s = s := by
  unfold bgStep
  rw [hq]

/-- Number of in-grid cells not yet incremented. -/
def bgU (elevations : Grid) (s : BGState) : Nat :=
  ((cellList elevations.width elevations.height).filter fun c =>
    decide (s.incr c ≤ 0)).length

/-- `1` when the queue head is the iteration marker, else `0`. -/
def bgHeadPenalty : List Cell → Nat
  | [] => 0
  | c :: _ => if c.1 = -1 then 1 else 0

theorem bgHeadPenalty_le (L : List Cell) : bgHeadPenalty L ≤ 1 := by
  cases L with
  | nil => simp [bgHeadPenalty]
  | cons c r => by_cases hb : c.1 = -1 <;> simp [bgHeadPenalty, hb]

/-- Termination measure of the `BuildGradient` loop. -/
def bgMeasure (elevations : Grid) (s : BGState) : Nat :=
  2 * (9 * bgU elevations s + s.queue.length) + bgHeadPenalty s.queue

theorem bg_inv_step (elevations flowdirs : Grid) (labels : Cell → Int) (s : BGState)
    (hinv : BGInv elevations s) (hdone : bgDone s = false) :
    BGInv elevations (bgStep elevations flowdirs labels s) := by
  obtain ⟨A, B, hQ, hA, hB⟩ := hinv.decomp
  cases hq : s.queue with
  | nil => rw [hq] at hQ; exact absurd hQ.symm (by simp)
  | cons c rest =>
    rcases bg_head_cases hQ hA hq with ⟨hcm, _, hrest⟩ | ⟨hcg, A2, hAeq, hrest⟩
    · have hc1 : c.1 = -1 := by rw [hcm]; rfl
      rw [bgStep_marker hq hc1]
      refine ⟨⟨B, [], ?_, hB, ?_⟩, ?_, ?_⟩
      · rw [hrest]
      · intro c' hc'; exact absurd hc' (List.not_mem_nil c')
      · show 1 ≤ s.loops + 1
        have := hinv.loops_pos; omega
      · intro c'
        show 0 ≤ s.incr c' ∧ s.incr c' ≤ s.loops + 1
        have h1 := hinv.incr_le c'
        have h2 := hinv.loops_pos
        constructor <;> omega
    · have hc1 : c.1 ≠ -1 := inGrid_x_nonneg hcg
      have hA2 : inGridCells elevations A2 := fun x hx =>
        hA x (by rw [hAeq]; exact List.mem_cons_of_mem _ hx)
      by_cases hpos : s.incr c > 0
      · rw [bgStep_skip hq hc1 hpos]
        exact ⟨⟨A2, B, hrest, hA2, hB⟩, hinv.loops_pos, hinv.incr_le⟩
      · rw [bgStep_assign hq hc1 hpos]
        refine ⟨⟨A2, B ++ bgPush elevations flowdirs c, ?_, hA2, ?_⟩, hinv.loops_pos, ?_⟩
        · show rest ++ bgPush elevations flowdirs c =
            A2 ++ markerCell :: (B ++ bgPush elevations flowdirs c)
          rw [hrest]
          simp
        · intro x hx
          rcases List.mem_append.mp hx with hx | hx
          · exact hB x hx
          · exact (bgPush_mem hx).1
        · intro c'
          show 0 ≤ upd s.incr c s.loops c' ∧ upd s.incr c s.loops c' ≤ s.loops
          by_cases hcd : c' = c
          · subst hcd
            rw [upd_same]
            have := hinv.loops_pos
            constructor <;> omega
          · rw [upd_other _ _ _ _ hcd]
            exact hinv.incr_le c'

theorem bg_measure_dec (elevations flowdirs : Grid) (labels : Cell → Int) (s : BGState)
    (hinv : BGInv elevations s) (hdone : bgDone s = false) :
    bgMeasure elevations (bgStep elevations flowdirs labels s) < bgMeasure elevations s := by
  obtain ⟨A, B, hQ, hA, hB⟩ := hinv.decomp
  cases hq : s.queue with
  | nil => rw [hq] at hQ; exact absurd hQ.symm (by simp)
  | cons c rest =>
    have hlen : s.queue.length = rest.length + 1 := by rw [hq]; rfl
    have hpenold : bgHeadPenalty s.queue = bgHeadPenalty (c :: rest) := by rw [hq]
    rcases bg_head_cases hQ hA hq with ⟨hcm, _, hrest⟩ | ⟨hcg, A2, hAeq, hrest⟩
    · -- marker pop: queue length and U unchanged, head penalty drops to 0
      have hc1 : c.1 = -1 := by rw [hcm]; rfl
      rw [bgStep_marker hq hc1]
      have hrestne : rest ≠ [] := by
        intro hre
        rw [bgDone, hq, hre] at hdone
        simp at hdone
      obtain ⟨b, rest2, hrest2⟩ := List.exists_cons_of_ne_nil hrestne
      have hb : b.1 ≠ -1 := by
        refine inGrid_x_nonneg (hB b ?_)
        rw [← hrest, hrest2]
        exact List.mem_cons_self _ _
      show 2 * (9 * bgU elevations
          { incr := s.incr, fh := s.fh, queue := rest ++ [markerCell],
            loops := s.loops + 1 } + (rest ++ [markerCell]).length) +
          bgHeadPenalty (rest ++ [markerCell]) <
        2 * (9 * bgU elevations s + s.queue.length) + bgHeadPenalty s.queue
      have hU : bgU elevations
          { incr := s.incr, fh := s.fh, queue := rest ++ [markerCell],
            loops := s.loops + 1 } = bgU elevations s := rfl
      have hpen2 : bgHeadPenalty (rest ++ [markerCell]) = 0 := by
        rw [hrest2]
        simp [bgHeadPenalty, hb]
      have hpen3 : bgHeadPenalty s.queue = 1 := by
        rw [hpenold]
        simp [bgHeadPenalty, hc1]
      rw [hU, hpen2, hpen3, List.length_append, hlen]
      simp only [List.length_cons, List.length_nil]
      omega
    · have hc1 : c.1 ≠ -1 := inGrid_x_nonneg hcg
      have hpen3 : bgHeadPenalty s.queue = 0 := by
        rw [hpenold]
        simp [bgHeadPenalty, hc1]
      by_cases hpos : s.incr c > 0
      · -- skip pop: queue shrinks by one
        rw [bgStep_skip hq hc1 hpos]
        show 2 * (9 * bgU elevations
            { incr := s.incr, fh := s.fh, queue := rest, loops := s.loops } +
            rest.length) + bgHeadPenalty rest <
          2 * (9 * bgU elevations s + s.queue.length) + bgHeadPenalty s.queue
        have hU : bgU elevations
            { incr := s.incr, fh := s.fh, queue := rest, loops := s.loops } =
            bgU elevations s := rfl
        have hple := bgHeadPenalty_le rest
        rw [hU, hpen3, hlen]
        omega
      · -- assignment pop: an unincremented in-grid cell is consumed
        rw [bgStep_assign hq hc1 hpos]
        show 2 * (9 * bgU elevations
            { incr := upd s.incr c s.loops, fh := updI s.fh (labels c) s.loops,
              queue := rest ++ bgPush elevations flowdirs c, loops := s.loops } +
            (rest ++ bgPush elevations flowdirs c).length) +
            bgHeadPenalty (rest ++ bgPush elevations flowdirs c) <
          2 * (9 * bgU elevations s + s.queue.length) + bgHeadPenalty s.queue
        have hUlt : bgU elevations
            { incr := upd s.incr c s.loops, fh := updI s.fh (labels c) s.loops,
              queue := rest ++ bgPush elevations flowdirs c, loops := s.loops } <
            bgU elevations s := by
          unfold bgU
          refine filter_length_lt _ _ c ?_ ?_ ?_ _ (cellList_mem_of_inGrid hcg)
          · simp only [decide_eq_true_eq]; omega
          · have hl := hinv.loops_pos
            show decide (upd s.incr c s.loops c ≤ 0) = false
            rw [upd_same]
            simp only [decide_eq_false_iff_not]
            omega
          · intro d hdc
            show decide (upd s.incr c s.loops d ≤ 0) = decide (s.incr d ≤ 0)
            rw [upd_other _ _ _ _ hdc]
        have hpush : (bgPush elevations flowdirs c).length ≤ 8 := by
          have h8 := List.length_filterMap_le (fun o : Cell =>
            let b : Cell := (c.1 + o.1, c.2 + o.2)
            if inGrid b.1 b.2 elevations.width elevations.height ∧
                elevations.get b.1 b.2 = elevations.get c.1 c.2 ∧
                flowdirs.get b.1 b.2 = NO_FLOW then
              some b
            else none) offsets
          exact h8
        have hple := bgHeadPenalty_le (rest ++ bgPush elevations flowdirs c)
        rw [hpen3, hlen, List.length_append]
        omega

theorem bg_run_inv (elevations flowdirs : Grid) (labels : Cell → Int)
    (n : Nat) (s : BGState) (hinv : BGInv elevations s) :
    BGInv elevations (iterRun bgDone (bgStep elevations flowdirs labels) n s) :=
  iterRun_inv (fun t ht hd => bg_inv_step elevations flowdirs labels t ht hd) n s hinv

theorem bg_run_done (elevations flowdirs : Grid) (labels : Cell → Int)
    (n : Nat) (s : BGState) (hinv : BGInv elevations s)
    (hn : bgMeasure elevations s ≤ n) :
    bgDone (iterRun bgDone (bgStep elevations flowdirs labels) n s) = true :=
  iterRun_done_of_measure
    (fun t ht hd => bg_inv_step elevations flowdirs labels t ht hd)
    (fun t ht hd => bg_measure_dec elevations flowdirs labels t ht hd) n s hinv hn

theorem bg_done_queue {elevations : Grid} {s : BGState}
    (hinv : BGInv elevations s) (hdone : bgDone s = true) :
    s.queue = [markerCell] := by
  obtain ⟨A, B, hQ, _, _⟩ := hinv.decomp
  have hlen : s.queue.length = 1 := by
    rw [bgDone] at hdone
    simp only [beq_iff_eq] at hdone
    exact hdone
  rw [hQ] at hlen ⊢
  rw [List.length_append, List.length_cons] at hlen
  have hA0 : A = [] := List.length_eq_zero.mp (by omega)
  have hB0 : B = [] := List.length_eq_zero.mp (by omega)
  rw [hA0, hB0]
  rfl

/-- Positive incrementations are stable: once a cell has been assigned, the
`if(incrementations(x,y)>0) continue` guard (line 65) protects it. -/
theorem bg_incr_stable (elevations flowdirs : Grid) (labels : Cell → Int) (c : Cell)
    (v : Int) (hv : 0 < v) (n : Nat) (s : BGState) (hs : s.incr c = v) :
    (iterRun bgDone (bgStep elevations flowdirs labels) n s).incr c = v := by
  refine iterRun_inv (P := fun t => t.incr c = v) ?_ n s hs
  intro t ht _
  cases hq : t.queue with
  | nil => rw [bgStep_nil hq]; exact ht
  | cons d rest =>
    by_cases hd1 : d.1 = -1
    · rw [bgStep_marker hq hd1]; exact ht
    · by_cases hpos : t.incr d > 0
      · rw [bgStep_skip hq hd1 hpos]; exact ht
      · rw [bgStep_assign hq hd1 hpos]
        show upd t.incr d t.loops c = v
        by_cases hcd : c = d
        · subst hcd; rw [ht] at hpos; omega
        · rw [upd_other _ _ _ _ hcd]; exact ht

theorem bg_initial_inv (elevations flowdirs : Grid) (fh0 : Int → Int) (edges : List Cell)
    (hin : inGridCells elevations edges) :
    BGInv elevations
      { incr := fun _ => 0, fh := fh0, queue := edges ++ [markerCell], loops := 1 } := by
  refine ⟨⟨edges, [], rfl, hin, ?_⟩, le_refl 1, ?_⟩
  · intro c hc; exact absurd hc (List.not_mem_nil c)
  · intro c; constructor <;> simp

theorem bg_initial_measure (elevations : Grid) (incr0 : Cell → Int) (fh0 : Int → Int)
    (edges : List Cell) (loops0 : Int) :
    bgMeasure elevations
      { incr := incr0, fh := fh0, queue := edges ++ [markerCell], loops := loops0 } ≤
      bgFuel elevations.width elevations.height edges.length := by
  show 2 * (9 * bgU elevations
      { incr := incr0, fh := fh0, queue := edges ++ [markerCell], loops := loops0 } +
      (edges ++ [markerCell]).length) + bgHeadPenalty (edges ++ [markerCell]) ≤
    2 * (9 * (elevations.width * elevations.height) + edges.length + 1) + 2
  have hfuel : bgFuel elevations.width elevations.height edges.length =
      2 * (9 * (elevations.width * elevations.height) + edges.length + 1) + 2 := rfl
  have hU : bgU elevations
      { incr := incr0, fh := fh0, queue := edges ++ [markerCell], loops := loops0 } ≤
      elevations.width * elevations.height := by
    calc ((cellList elevations.width elevations.height).filter fun c =>
          decide (incr0 c ≤ 0)).length
        ≤ (cellList elevations.width elevations.height).length :=
          List.length_filter_le _ _
      _ = elevations.width * elevations.height := cellList_length _ _
  have hp := bgHeadPenalty_le (edges ++ [markerCell])
  have hlen : (edges ++ [markerCell]).length = edges.length + 1 := by
    rw [List.length_append]; rfl
  rw [hlen]
  omega

/-! ## Claim C10 -/

/-- C10: with the incrementation grid initialised to `0` and the seed queue
drawn from the grid, the `BuildGradient` loop terminates — with the fuel the
embedding supplies it reaches the state in which only the iteration marker
remains — and each cell is assigned a positive incrementation at most once:
any positive value observed at any iteration is the value left in the final
incrementation grid. -/
theorem C10_build_gradient_terminates (elevations flowdirs : Grid)
    (labels : Cell → Int) (fh0 : Int → Int) (edges : List Cell)
    (hin : ∀ c ∈ edges, inGrid c.1 c.2 elevations.width elevations.height = true) :
    (BuildGradient elevations flowdirs (fun _ => 0) edges fh0 labels).queue =
      [markerCell] ∧
    (∀ (n : Nat) (c : Cell) (v : Int), 0 < v →
      (iterRun bgDone (bgStep elevations flowdirs labels) n
        { incr := fun _ => 0, fh := fh0, queue := edges ++ [markerCell],
          loops := 1 }).incr c = v →
      (BuildGradient elevations flowdirs (fun _ => 0) edges fh0 labels).incr c = v) := by
  have hinv0 := bg_initial_inv elevations flowdirs fh0 edges hin
  have hbound := bg_initial_measure elevations (fun _ => 0) fh0 edges 1
  constructor
  · refine bg_done_queue
      (bg_run_inv elevations flowdirs labels _ _ hinv0)
      (bg_run_done elevations flowdirs labels _ _ hinv0 hbound)
  · intro n c v hv hn
    unfold BuildGradient
    rcases le_or_lt n (bgFuel elevations.width elevations.height edges.length)
      with hle | hlt
    · have heq : bgFuel elevations.width elevations.height edges.length =
          n + (bgFuel elevations.width elevations.height edges.length - n) := by omega
      rw [heq, iterRun_add]
      exact bg_incr_stable elevations flowdirs labels c v hv _ _ hn
    · have hdone := bg_run_done elevations flowdirs labels _ _ hinv0 hbound
      have heq : n = bgFuel elevations.width elevations.height edges.length +
          (n - bgFuel elevations.width elevations.height edges.length) := by omega
      rw [heq, iterRun_add, iterRun_of_done _ hdone] at hn
      exact hn

/-- Witness for `C10_build_gradient_terminates` on the single-row input. -/
theorem C10_witness :
    (∀ c ∈ [((0 : Int), (0 : Int))], inGrid c.1 c.2 elSR.width elSR.height = true) ∧
    ((BuildGradient elSR fdSR (fun _ => 0) [(0, 0)] (fun _ => 0) (fun _ => 0)).queue =
      [markerCell] ∧
    (∀ (n : Nat) (c : Cell) (v : Int), 0 < v →
      (iterRun bgDone (bgStep elSR fdSR (fun _ => 0)) n
        { incr := fun _ => 0, fh := fun _ => 0, queue := [(0, 0)] ++ [markerCell],
          loops := 1 }).incr c = v →
      (BuildGradient elSR fdSR (fun _ => 0) [(0, 0)] (fun _ => 0) (fun _ => 0)).incr c = v)) :=
  ⟨by decide,
    C10_build_gradient_terminates elSR fdSR (fun _ => 0) (fun _ => 0) [(0, 0)] (by decide)⟩

/-! ## Facts about `label_this` -/

theorem ltStep_nil {elevations : Grid} {w h : Nat} {target lab : Int} {s : LTState}
    (hq : s.queue = []) : ltStep elevations w h target lab s = s := by
  unfold ltStep
  rw [hq]

theorem ltStep_skip {elevations : Grid} {w h : Nat} {target lab : Int} {s : LTState}
    {c : Cell} {rest : List Cell} (hq : s.queue = c :: rest)
    (hguard : elevations.get c.1 c.2 ≠ target ∨ s.labels c > -1) :
    ltStep elevations w h target lab s = { labels := s.labels, queue := rest } := by
  unfold ltStep
  rw [hq]
  simp [hguard]

theorem ltStep_label {elevations : Grid} {w h : Nat} {target lab : Int} {s : LTState}
    {c : Cell} {rest : List Cell} (hq : s.queue = c :: rest)
    (hguard : ¬ (elevations.get c.1 c.2 ≠ target ∨ s.labels c > -1)) :
    ltStep elevations w h target lab s =
      { labels := upd s.labels c lab, queue := rest ++ ltPush w h c } := by
  unfold ltStep
  rw [hq]
  simp only [if_neg hguard]

theorem ltPush_mem {w h : Nat} {c d : Cell} (hd : d ∈ ltPush w h c) :
    inGrid d.1 d.2 w h = true ∧ adjacent c d := by
  unfold ltPush at hd
  rw [List.mem_filterMap] at hd
  obtain ⟨o, ho, hcond⟩ := hd
  by_cases hg : inGrid (c.1 + o.1) (c.2 + o.2) w h = true
  · rw [if_pos hg] at hcond
    obtain rfl := Option.some_injective _ hcond
    exact ⟨hg, o, ho, rfl⟩
  · rw [if_neg hg] at hcond
    exact absurd hcond (by simp)

theorem ltPush_mem_of {w h : Nat} {c : Cell} {o : Cell} (ho : o ∈ offsets)
    (hg : inGrid (c.1 + o.1) (c.2 + o.2) w h = true) :
    (c.1 + o.1, c.2 + o.2) ∈ ltPush w h c := by
  unfold ltPush
  rw [List.mem_filterMap]
  exact ⟨o, ho, by rw [if_pos hg]⟩

/-- The combined invariant of one `label_this` call relative to its entry
state: queue cells are in grid; label values stay in range; a cell's label
changes only to the call's label, only from `-1`, only at the target
elevation, and only if it is reachable from the seed; queue cells at the
target elevation are reachable from the seed; and every in-grid neighbour
of a cell already labeled by this call is queued, labeled, or off the
target elevation. -/
structure LTInv (elevations : Grid) (w h : Nat) (target lab : Int)
    (labels0 : Cell → Int) (d0 : Cell) (s : LTState) : Prop where
  inq : ∀ q ∈ s.queue, inGrid q.1 q.2 w h = true
  range : ∀ c, s.labels c = -1 ∨ 0 ≤ s.labels c
  mono : ∀ c, s.labels c = labels0 c ∨
    (labels0 c = -1 ∧ s.labels c = lab ∧ elevations.get c.1 c.2 = target ∧
      inGrid c.1 c.2 w h = true ∧ EqReach elevations w h d0 c)
  qreach : ∀ q ∈ s.queue, elevations.get q.1 q.2 = target →
    EqReach elevations w h d0 q
  clos : ∀ a, labels0 a = -1 → s.labels a = lab →
    ∀ o ∈ offsets, inGrid (a.1 + o.1) (a.2 + o.2) w h = true →
      ((a.1 + o.1, a.2 + o.2) ∈ s.queue ∨
        s.labels (a.1 + o.1, a.2 + o.2) ≠ -1 ∨
        elevations.get (a.1 + o.1) (a.2 + o.2) ≠ target)

theorem lt_inv_step (elevations : Grid) (w h : Nat) (target lab : Int)
    (labels0 : Cell → Int) (d0 : Cell) (hlab : 0 ≤ lab) (s : LTState)
    (hinv : LTInv elevations w h target lab labels0 d0 s)
    (hdone : ltDone s = false) :
    LTInv elevations w h target lab labels0 d0
      (ltStep elevations w h target lab s) := by
  cases hq : s.queue with
  | nil => rw [ltDone, hq] at hdone; simp at hdone
  | cons c rest =>
    have hcq : c ∈ s.queue := by rw [hq]; exact List.mem_cons_self _ _
    have hcg := hinv.inq c hcq
    by_cases hguard : elevations.get c.1 c.2 ≠ target ∨ s.labels c > -1
    · rw [ltStep_skip hq hguard]
      refine ⟨?_, hinv.range, hinv.mono, ?_, ?_⟩
      · intro q hqm
        exact hinv.inq q (by rw [hq]; exact List.mem_cons_of_mem _ hqm)
      · intro q hqm
        exact hinv.qreach q (by rw [hq]; exact List.mem_cons_of_mem _ hqm)
      · intro a ha0 hal o ho hog
        have hal' : s.labels a = lab := hal
        rcases hinv.clos a ha0 hal' o ho hog with hm | hm | hm
        · rw [hq] at hm
          rcases List.mem_cons.mp hm with hm2 | hm2
          · -- the popped neighbour: it was skipped because labeled or off-target
            subst hm2
            rcases hguard with hg | hg
            · right; right; exact hg
            · right; left
              show s.labels (a.1 + o.1, a.2 + o.2) ≠ -1
              omega
          · left; exact hm2
        · right; left; exact hm
        · right; right; exact hm
    · rw [ltStep_label hq hguard]
      push_neg at hguard
      obtain ⟨htc, hlc⟩ := hguard
      have hlc0 : s.labels c = -1 := by
        have := hinv.range c
        omega
      have hl0c : labels0 c = -1 := by
        rcases hinv.mono c with hm | hm
        · rw [← hm]; exact hlc0
        · rw [hlc0] at hm; omega
      have hreach : EqReach elevations w h d0 c := hinv.qreach c hcq htc
      refine ⟨?_, ?_, ?_, ?_, ?_⟩
      · intro q hqm
        rcases List.mem_append.mp hqm with hm | hm
        · exact hinv.inq q (by rw [hq]; exact List.mem_cons_of_mem _ hm)
        · exact (ltPush_mem hm).1
      · intro x
        show upd s.labels c lab x = -1 ∨ 0 ≤ upd s.labels c lab x
        by_cases hxc : x = c
        · subst hxc; rw [upd_same]; right; exact hlab
        · rw [upd_other _ _ _ _ hxc]; exact hinv.range x
      · intro x
        show upd s.labels c lab x = labels0 x ∨
          (labels0 x = -1 ∧ upd s.labels c lab x = lab ∧
            elevations.get x.1 x.2 = target ∧ inGrid x.1 x.2 w h = true ∧
            EqReach elevations w h d0 x)
        by_cases hxc : x = c
        · subst hxc
          rw [upd_same]
          exact Or.inr ⟨hl0c, rfl, htc, hcg, hreach⟩
        · rw [upd_other _ _ _ _ hxc]
          exact hinv.mono x
      · intro q hqm htq
        rcases List.mem_append.mp hqm with hm | hm
        · exact hinv.qreach q (by rw [hq]; exact List.mem_cons_of_mem _ hm) htq
        · obtain ⟨hg, hadj⟩ := ltPush_mem hm
          refine Relation.ReflTransGen.tail hreach ⟨hadj, hg, ?_⟩
          rw [htq, htc]
      · intro a ha0 hal o ho hog
        by_cases hac : a = c
        · subst hac
          left
          rw [List.mem_append]
          right
          exact ltPush_mem_of ho hog
        · have hal' : s.labels a = lab := by
            rw [← upd_other s.labels c a lab hac]
            exact hal
          rcases hinv.clos a ha0 hal' o ho hog with hm | hm | hm
          · rw [hq] at hm
            rcases List.mem_cons.mp hm with hm2 | hm2
            · right; left
              show upd s.labels c lab (a.1 + o.1, a.2 + o.2) ≠ -1
              rw [hm2, upd_same]
              omega
            · left; rw [List.mem_append]; left; exact hm2
          · right; left
            show upd s.labels c lab (a.1 + o.1, a.2 + o.2) ≠ -1
            by_cases hbc : (a.1 + o.1, a.2 + o.2) = c
            · rw [hbc, upd_same]; omega
            · rw [upd_other _ _ _ _ hbc]; exact hm
          · right; right; exact hm

/-- Number of in-grid cells still unlabeled. -/
def ltU (w h : Nat) (s : LTState) : Nat :=
  ((cellList w h).filter fun c => decide (s.labels c = -1)).length

/-- Termination measure of the `label_this` loop. -/
def ltMeasure (w h : Nat) (s : LTState) : Nat := 9 * ltU w h s + s.queue.length

theorem lt_measure_dec (elevations : Grid) (w h : Nat) (target lab : Int)
    (labels0 : Cell → Int) (d0 : Cell) (hlab : 0 ≤ lab) (s : LTState)
    (hinv : LTInv elevations w h target lab labels0 d0 s)
    (hdone : ltDone s = false) :
    ltMeasure w h (ltStep elevations w h target lab s) < ltMeasure w h s := by
  cases hq : s.queue with
  | nil => rw [ltDone, hq] at hdone; simp at hdone
  | cons c rest =>
    have hcq : c ∈ s.queue := by rw [hq]; exact List.mem_cons_self _ _
    have hcg := hinv.inq c hcq
    have hlen : s.queue.length = rest.length + 1 := by rw [hq]; rfl
    by_cases hguard : elevations.get c.1 c.2 ≠ target ∨ s.labels c > -1
    · rw [ltStep_skip hq hguard]
      show 9 * ltU w h { labels := s.labels, queue := rest } + rest.length <
        9 * ltU w h s + s.queue.length
      have hU : ltU w h { labels := s.labels, queue := rest } = ltU w h s := rfl
      rw [hU, hlen]
      omega
    · rw [ltStep_label hq hguard]
      push_neg at hguard
      obtain ⟨htc, hlc⟩ := hguard
      have hlc0 : s.labels c = -1 := by
        have := hinv.range c
        omega
      show 9 * ltU w h { labels := upd s.labels c lab, queue := rest ++ ltPush w h c } +
        (rest ++ ltPush w h c).length < 9 * ltU w h s + s.queue.length
      have hUlt : ltU w h { labels := upd s.labels c lab, queue := rest ++ ltPush w h c } <
          ltU w h s := by
        unfold ltU
        refine filter_length_lt _ _ c ?_ ?_ ?_ _ (cellList_mem_of_inGrid hcg)
        · simp only [decide_eq_true_eq]; exact hlc0
        · show decide (upd s.labels c lab c = -1) = false
          rw [upd_same]
          simp only [decide_eq_false_iff_not]
          omega
        · intro d hdc
          show decide (upd s.labels c lab d = -1) = decide (s.labels d = -1)
          rw [upd_other _ _ _ _ hdc]
      have hpush : (ltPush w h c).length ≤ 8 := by
        have h8 := List.length_filterMap_le (fun o : Cell =>
          if inGrid (c.1 + o.1) (c.2 + o.2) w h then some (c.1 + o.1, c.2 + o.2)
          else none) offsets
        exact h8
      rw [hlen, List.length_append]
      omega

theorem lt_run_inv (elevations : Grid) (w h : Nat) (target lab : Int)
    (labels0 : Cell → Int) (d0 : Cell) (hlab : 0 ≤ lab) (n : Nat) (s : LTState)
    (hinv : LTInv elevations w h target lab labels0 d0 s) :
    LTInv elevations w h target lab labels0 d0
      (iterRun ltDone (ltStep elevations w h target lab) n s) :=
  iterRun_inv (fun t ht hd =>
    lt_inv_step elevations w h target lab labels0 d0 hlab t ht hd) n s hinv

theorem lt_run_done (elevations : Grid) (w h : Nat) (target lab : Int)
    (labels0 : Cell → Int) (d0 : Cell) (hlab : 0 ≤ lab) (n : Nat) (s : LTState)
    (hinv : LTInv elevations w h target lab labels0 d0 s)
    (hn : ltMeasure w h s ≤ n) :
    ltDone (iterRun ltDone (ltStep elevations w h target lab) n s) = true :=
  iterRun_done_of_measure
    (fun t ht hd => lt_inv_step elevations w h target lab labels0 d0 hlab t ht hd)
    (fun t ht hd => lt_measure_dec elevations w h target lab labels0 d0 hlab t ht hd)
    n s hinv hn

/-- The seed is labeled by the time the queue drains: at every state either
the seed already carries a non-sentinel label or it is still queued. -/
theorem lt_seed_inv (elevations : Grid) (w h : Nat) (lab : Int)
    (hlab : 0 ≤ lab) (d0 : Cell) (n : Nat) (s : LTState)
    (hs : s.labels d0 ≠ -1 ∨ d0 ∈ s.queue) :
    (iterRun ltDone (ltStep elevations w h (elevations.get d0.1 d0.2) lab) n s).labels d0 ≠ -1 ∨
    d0 ∈ (iterRun ltDone (ltStep elevations w h (elevations.get d0.1 d0.2) lab) n s).queue := by
  refine iterRun_inv (P := fun t => t.labels d0 ≠ -1 ∨ d0 ∈ t.queue) ?_ n s hs
  intro t ht _
  cases hq : t.queue with
  | nil =>
    rw [ltStep_nil hq]
    rcases ht with ht | ht
    · left; exact ht
    · rw [hq] at ht; exact absurd ht (List.not_mem_nil _)
  | cons c rest =>
    by_cases hguard : elevations.get c.1 c.2 ≠ elevations.get d0.1 d0.2 ∨ t.labels c > -1
    · rw [ltStep_skip hq hguard]
      rcases ht with ht | ht
      · left; exact ht
      · rw [hq] at ht
        rcases List.mem_cons.mp ht with ht2 | ht2
        · subst ht2
          rcases hguard with hg | hg
          · exact absurd rfl hg
          · left
            show t.labels d0 ≠ -1
            omega
        · right; exact ht2
    · rw [ltStep_label hq hguard]
      push_neg at hguard
      rcases ht with ht | ht
      · left
        show upd t.labels c lab d0 ≠ -1
        by_cases hdc : d0 = c
        · rw [hdc, upd_same]; omega
        · rw [upd_other _ _ _ _ hdc]; exact ht
      · rw [hq] at ht
        rcases List.mem_cons.mp ht with ht2 | ht2
        · left
          show upd t.labels c lab d0 ≠ -1
          rw [ht2, upd_same]
          omega
        · right
          rw [List.mem_append]
          left
          exact ht2

/-- Full specification of one `label_this` call with label `≥ 0` from an
in-grid seed on a labels grid whose values are `-1` or nonnegative:
(A) per-cell change characterisation, (B) neighbour closure of the newly
labeled set, (C) the seed itself is labeled when previously unlabeled. -/
theorem label_this_spec (elevations : Grid) (w h : Nat) (d0 : Cell) (lab : Int)
    (labels0 : Cell → Int) (hlab : 0 ≤ lab)
    (hd0 : inGrid d0.1 d0.2 w h = true)
    (hrange0 : ∀ c, labels0 c = -1 ∨ 0 ≤ labels0 c) :
    (∀ c, label_this d0.1 d0.2 lab labels0 elevations w h c = labels0 c ∨
      (labels0 c = -1 ∧ label_this d0.1 d0.2 lab labels0 elevations w h c = lab ∧
        elevations.get c.1 c.2 = elevations.get d0.1 d0.2 ∧
        inGrid c.1 c.2 w h = true ∧ EqReach elevations w h d0 c)) ∧
    (∀ a, labels0 a = -1 → label_this d0.1 d0.2 lab labels0 elevations w h a = lab →
      ∀ o ∈ offsets, inGrid (a.1 + o.1) (a.2 + o.2) w h = true →
        (label_this d0.1 d0.2 lab labels0 elevations w h (a.1 + o.1, a.2 + o.2) ≠ -1 ∨
          elevations.get (a.1 + o.1) (a.2 + o.2) ≠ elevations.get d0.1 d0.2)) ∧
    (labels0 d0 = -1 → label_this d0.1 d0.2 lab labels0 elevations w h d0 = lab) := by
  have hinv0 : LTInv elevations w h (elevations.get d0.1 d0.2) lab labels0 d0
      { labels := labels0, queue := [(d0.1, d0.2)] } := by
    refine ⟨?_, hrange0, fun c => Or.inl rfl, ?_, ?_⟩
    · intro q hqm
      rw [List.mem_singleton] at hqm
      subst hqm
      exact hd0
    · intro q hqm _
      rw [List.mem_singleton] at hqm
      subst hqm
      exact Relation.ReflTransGen.refl
    · intro a ha0 hal o ho hog
      exfalso
      have hal' : labels0 a = lab := hal
      rw [ha0] at hal'
      omega
  have hm0 : ltMeasure w h { labels := labels0, queue := [(d0.1, d0.2)] } ≤ ltFuel w h := by
    unfold ltMeasure ltFuel
    have hU : ltU w h { labels := labels0, queue := [(d0.1, d0.2)] } ≤ w * h := by
      unfold ltU
      calc ((cellList w h).filter fun c => decide (labels0 c = -1)).length
          ≤ (cellList w h).length := List.length_filter_le _ _
        _ = w * h := cellList_length _ _
    have hlen : ([(d0.1, d0.2)] : List Cell).length = 1 := rfl
    rw [hlen]
    omega
  have hfin := lt_run_inv elevations w h (elevations.get d0.1 d0.2) lab labels0 d0 hlab
    (ltFuel w h) _ hinv0
  have hdone := lt_run_done elevations w h (elevations.get d0.1 d0.2) lab labels0 d0 hlab
    (ltFuel w h) _ hinv0 hm0
  have hqnil : (iterRun ltDone (ltStep elevations w h (elevations.get d0.1 d0.2) lab)
      (ltFuel w h) { labels := labels0, queue := [(d0.1, d0.2)] }).queue = [] := by
    rw [ltDone] at hdone
    exact List.isEmpty_iff.mp hdone
  refine ⟨?_, ?_, ?_⟩
  · intro c
    exact hfin.mono c
  · intro a ha0 hal o ho hog
    rcases hfin.clos a ha0 hal o ho hog with hm | hm | hm
    · rw [hqnil] at hm
      exact absurd hm (List.not_mem_nil _)
    · left; exact hm
    · right; exact hm
  · intro hd0lab
    have hseed := lt_seed_inv elevations w h lab hlab d0 (ltFuel w h)
      { labels := labels0, queue := [(d0.1, d0.2)] } (Or.inr (by simp))
    rcases hseed with hs | hs
    · rcases hfin.mono d0 with hm | hm
      · exact absurd (hm.trans hd0lab) hs
      · exact hm.2.1
    · rw [hqnil] at hs
      exact absurd hs (List.not_mem_nil _)

/-! ## The orchestrator's labeling loop -/

/-- Annotated reversal of an equal-elevation walk: every step of the
reversed walk targets a cell that the original seed reaches. -/
theorem eqReach_symm_within (elevations : Grid) (w h : Nat) (s0 : Cell)
    (hs0 : inGrid s0.1 s0.2 w h = true) {c : Cell}
    (hr : EqReach elevations w h s0 c) :
    Relation.ReflTransGen (fun a b => reachStep elevations w h a b ∧
      EqReach elevations w h s0 b) c s0 := by
  induction hr with
  | refl => exact Relation.ReflTransGen.refl
  | tail hr2 hstep ih =>
    exact Relation.ReflTransGen.head
      ⟨⟨adjacent_symm hstep.1, eqReach_inGrid hr2 hs0, by rw [hstep.2.2]⟩, hr2⟩ ih

/-- Forward annotation of an equal-elevation walk with seed reachability. -/
theorem eqReach_annotate (elevations : Grid) (w h : Nat) (s0 : Cell) {c : Cell}
    (hr : EqReach elevations w h s0 c) :
    Relation.ReflTransGen (fun a b => reachStep elevations w h a b ∧
      EqReach elevations w h s0 b) s0 c := by
  induction hr with
  | refl => exact Relation.ReflTransGen.refl
  | tail hr2 hstep ih =>
    exact Relation.ReflTransGen.tail ih ⟨hstep, Relation.ReflTransGen.tail hr2 hstep⟩

/-- Invariant of the orchestrator's labeling loop (lines 264–267) after the
prefix `P` of the low-edge queue has been processed with `n` labels handed
out: labels lie in `{-1} ∪ [0,n)`; a labeled cell is reachable from some
processed edge; everything reachable from a processed edge is labeled; and
each label class is exactly the set of cells equal-elevation-reachable from
one in-grid seed. -/
structure LabInv (elevations : Grid) (w h : Nat) (P : List Cell)
    (labels : Cell → Int) (n : Int) : Prop where
  nonneg : 0 ≤ n
  range : ∀ c, labels c = -1 ∨ (0 ≤ labels c ∧ labels c < n)
  sound : ∀ c, labels c ≠ -1 → ∃ d ∈ P, EqReach elevations w h d c
  complete : ∀ d ∈ P, ∀ c, EqReach elevations w h d c → labels c ≠ -1
  classes : ∀ k : Int, 0 ≤ k → k < n → ∃ s0 : Cell,
    inGrid s0.1 s0.2 w h = true ∧ ∀ c, (labels c = k ↔ EqReach elevations w h s0 c)

theorem labInv_extend_labeled (elevations : Grid) (w h : Nat) (P : List Cell)
    (labels : Cell → Int) (n : Int) (d : Cell)
    (hinv : LabInv elevations w h P labels n) (hd : labels d ≠ -1) :
    LabInv elevations w h (P ++ [d]) labels n := by
  refine ⟨hinv.nonneg, hinv.range, ?_, ?_, hinv.classes⟩
  · intro c hc
    obtain ⟨d0, hd0, hr⟩ := hinv.sound c hc
    exact ⟨d0, List.mem_append.mpr (Or.inl hd0), hr⟩
  · intro d2 hd2 c hrc
    rcases List.mem_append.mp hd2 with hm | hm
    · exact hinv.complete d2 hm c hrc
    · rw [List.mem_singleton] at hm
      subst hm
      rcases hinv.range d2 with hk | ⟨hk0, hkn⟩
      · exact absurd hk hd
      · obtain ⟨s0, _, hiff⟩ := hinv.classes (labels d2) hk0 hkn
        have h2 : EqReach elevations w h s0 c :=
          eqReach_trans ((hiff d2).mp rfl) hrc
        have h3 : labels c = labels d2 := (hiff c).mpr h2
        rw [h3]
        exact hd

theorem labInv_extend_new (elevations : Grid) (w h : Nat) (P : List Cell)
    (labels : Cell → Int) (n : Int) (d : Cell)
    (hinv : LabInv elevations w h P labels n)
    (hdg : inGrid d.1 d.2 w h = true) (hd : labels d = -1) :
    LabInv elevations w h (P ++ [d])
      (label_this d.1 d.2 n labels elevations w h) (n + 1) := by
  have hrange0 : ∀ c, labels c = -1 ∨ 0 ≤ labels c := by
    intro c
    rcases hinv.range c with hc | hc
    · left; exact hc
    · right; exact hc.1
  obtain ⟨hA, hB, hC⟩ :=
    label_this_spec elevations w h d n labels hinv.nonneg hdg hrange0
  have hnn := hinv.nonneg
  -- every cell on an equal-elevation path from the seed receives label n
  have hkey : ∀ c, EqReach elevations w h d c →
      label_this d.1 d.2 n labels elevations w h c = n := by
    intro c hc
    induction hc with
    | refl => exact hC hd
    | tail hr hstep ih =>
      rename_i a b
      have ha2 : labels a = -1 ∧
          label_this d.1 d.2 n labels elevations w h a = n ∧
          elevations.get a.1 a.2 = elevations.get d.1 d.2 := by
        rcases hA a with hm | hm
        · exfalso
          rcases hinv.range a with hr2 | hr2
          · rw [hm, hr2] at ih; omega
          · rw [hm] at ih; omega
        · exact ⟨hm.1, hm.2.1, hm.2.2.1⟩
      obtain ⟨o, ho, hbo⟩ := hstep.1
      subst hbo
      have helb : elevations.get (a.1 + o.1) (a.2 + o.2) =
          elevations.get d.1 d.2 := by
        have h1 : elevations.get (a.1 + o.1) (a.2 + o.2) =
            elevations.get a.1 a.2 := hstep.2.2
        rw [h1, ha2.2.2]
      have hginb : inGrid (a.1 + o.1) (a.2 + o.2) w h = true := hstep.2.1
      have hclos := hB a ha2.1 ha2.2.1 o ho hginb
      rcases hclos with hcl | hcl
      · rcases hA (a.1 + o.1, a.2 + o.2) with hm | hm
        · exfalso
          have hlb : labels (a.1 + o.1, a.2 + o.2) ≠ -1 := by
            rw [← hm]; exact hcl
          rcases hinv.range (a.1 + o.1, a.2 + o.2) with hr2 | ⟨hk0, hkn⟩
          · exact hlb hr2
          · obtain ⟨s0, _, hiff⟩ := hinv.classes _ hk0 hkn
            have h1 : EqReach elevations w h s0 (a.1 + o.1, a.2 + o.2) :=
              (hiff _).mp rfl
            have hdb : EqReach elevations w h d (a.1 + o.1, a.2 + o.2) :=
              Relation.ReflTransGen.tail hr hstep
            have hbd : EqReach elevations w h (a.1 + o.1, a.2 + o.2) d :=
              eqReach_symm hdg hdb
            have hs0d : EqReach elevations w h s0 d := eqReach_trans h1 hbd
            have hld : labels d = labels (a.1 + o.1, a.2 + o.2) :=
              (hiff d).mpr hs0d
            rw [hd] at hld
            exact hlb hld.symm
        · exact hm.2.1
      · exact absurd helb hcl
  refine ⟨by omega, ?_, ?_, ?_, ?_⟩
  · intro c
    rcases hA c with hm | hm
    · rcases hinv.range c with hr2 | hr2
      · left; rw [hm]; exact hr2
      · right; rw [hm]; exact ⟨hr2.1, by omega⟩
    · right; rw [hm.2.1]; exact ⟨hnn, by omega⟩
  · intro c hc
    rcases hA c with hm | hm
    · rw [hm] at hc
      obtain ⟨d0, hd0, hr⟩ := hinv.sound c hc
      exact ⟨d0, List.mem_append.mpr (Or.inl hd0), hr⟩
    · exact ⟨d, List.mem_append.mpr (Or.inr (List.mem_singleton.mpr rfl)),
        hm.2.2.2.2⟩
  · intro d2 hd2 c hrc
    rcases List.mem_append.mp hd2 with hm | hm
    · have hold := hinv.complete d2 hm c hrc
      rcases hA c with hm2 | hm2
      · rw [hm2]; exact hold
      · rw [hm2.2.1]; omega
    · rw [List.mem_singleton] at hm
      subst hm
      rw [hkey c hrc]
      omega
  · intro k hk0 hkn
    by_cases hkn2 : k < n
    · obtain ⟨s0, hs0g, hiff⟩ := hinv.classes k hk0 hkn2
      refine ⟨s0, hs0g, ?_⟩
      intro c
      constructor
      · intro hc
        rcases hA c with hm | hm
        · rw [hm] at hc; exact (hiff c).mp hc
        · rw [hm.2.1] at hc; omega
      · intro hc
        have hc2 : labels c = k := (hiff c).mpr hc
        rcases hA c with hm | hm
        · rw [hm]; exact hc2
        · rw [hm.1] at hc2; omega
    · have hkn3 : k = n := by omega
      subst hkn3
      refine ⟨d, hdg, ?_⟩
      intro c
      constructor
      · intro hc
        rcases hA c with hm | hm
        · exfalso
          rw [hm] at hc
          rcases hinv.range c with hr2 | hr2
          · rw [hr2] at hc; omega
          · omega
        · exact hm.2.2.2.2
      · exact hkey c

theorem labelEdges_cons (elevations : Grid) (w h : Nat) (d : Cell) (L : List Cell)
    (labels : Cell → Int) (n : Int) :
    labelEdges elevations w h (d :: L) labels n =
      if labels d = -1 then
        labelEdges elevations w h L (label_this d.1 d.2 n labels elevations w h) (n + 1)
      else labelEdges elevations w h L labels n := rfl

theorem labelEdges_inv (elevations : Grid) (w h : Nat) :
    ∀ (L P : List Cell) (labels : Cell → Int) (n : Int),
      (∀ x ∈ L, inGrid x.1 x.2 w h = true) →
      LabInv elevations w h P labels n →
      LabInv elevations w h (P ++ L)
        (labelEdges elevations w h L labels n).1
        (labelEdges elevations w h L labels n).2 := by
  intro L
  induction L with
  | nil =>
    intro P labels n _ hinv
    rw [List.append_nil]
    exact hinv
  | cons d L2 ih =>
    intro P labels n hin hinv
    have hdg := hin d (List.mem_cons_self _ _)
    have hin2 : ∀ x ∈ L2, inGrid x.1 x.2 w h = true := fun x hx =>
      hin x (List.mem_cons_of_mem _ hx)
    have hassoc : P ++ d :: L2 = (P ++ [d]) ++ L2 := by simp
    rw [hassoc]
    rw [labelEdges_cons]
    by_cases hd : labels d = -1
    · rw [if_pos hd]
      exact ih (P ++ [d]) _ _ hin2
        (labInv_extend_new elevations w h P labels n d hinv hdg hd)
    · rw [if_neg hd]
      exact ih (P ++ [d]) _ _ hin2
        (labInv_extend_labeled elevations w h P labels n d hinv hd)

/-- The labeling invariant at the end of the orchestrator's labeling loop:
processed prefix = the entire low-edge queue. -/
theorem resolve_labInv (elevations flowdirs : Grid) :
    LabInv elevations flowdirs.width flowdirs.height
      (find_flat_edges flowdirs elevations).1
      (resolveLabels elevations flowdirs).1
      (resolveLabels elevations flowdirs).2 := by
  have hinit : LabInv elevations flowdirs.width flowdirs.height [] (fun _ => -1) 0 := by
    refine ⟨le_refl 0, ?_, ?_, ?_, ?_⟩
    · intro c; left; rfl
    · intro c hc; exact absurd rfl hc
    · intro d hd; exact absurd hd (List.not_mem_nil _)
    · intro k hk0 hkn; exfalso; omega
  have hin : ∀ x ∈ (find_flat_edges flowdirs elevations).1,
      inGrid x.1 x.2 flowdirs.width flowdirs.height = true := by
    intro x hx
    rw [inGrid_iff]
    exact low_edges_in_grid hx
  have hmain := labelEdges_inv elevations flowdirs.width flowdirs.height
    (find_flat_edges flowdirs elevations).1 [] (fun _ => -1) 0 hin hinit
  rw [List.nil_append] at hmain
  exact hmain

/-! ## Claim C2 -/

/-- C2, counterexample: on the single-row input the cell `(0,0)` is labeled
(`label = 0 ≠ -1`) although its flow direction is defined, refuting
"label ≠ -1 only if flowdir = NO_FLOW". -/
theorem C2_counterexample :
    (resolve_flats_barnes elSR fdSR).labels (0, 0) ≠ -1 ∧
    fdSR.get 0 0 ≠ NO_FLOW := by
  decide

/-- C2 (amended): after the pipeline, a cell is labeled iff it is reachable
from some cell of the low-edge queue via an equal-elevation 8-connected
in-grid walk — the flood fill ignores flow directions, so labeled cells
include defined-flow cells; and cells sharing a label are
elevation-homogeneous and 8-connected through cells of that same label. -/
theorem C2_label_partition (elevations flowdirs : Grid) (c c' : Cell) :
    ((resolve_flats_barnes elevations flowdirs).labels c ≠ -1 ↔
      ∃ d ∈ (resolve_flats_barnes elevations flowdirs).lowEdges,
        EqReach elevations flowdirs.width flowdirs.height d c) ∧
    ((resolve_flats_barnes elevations flowdirs).labels c ≠ -1 →
      (resolve_flats_barnes elevations flowdirs).labels c' =
        (resolve_flats_barnes elevations flowdirs).labels c →
      elevations.get c'.1 c'.2 = elevations.get c.1 c.2 ∧
      Relation.ReflTransGen (fun a b => adjacent a b ∧
        inGrid b.1 b.2 flowdirs.width flowdirs.height = true ∧
        (resolve_flats_barnes elevations flowdirs).labels b =
          (resolve_flats_barnes elevations flowdirs).labels c) c c') := by
  unfold resolve_flats_barnes
  by_cases hemp : (find_flat_edges flowdirs elevations).1.isEmpty = true
  · rw [if_pos hemp]
    have hnil : (find_flat_edges flowdirs elevations).1 = [] :=
      List.isEmpty_iff.mp hemp
    constructor
    · constructor
      · intro hc; exact absurd rfl hc
      · rintro ⟨d, hd, -⟩
        rw [hnil] at hd
        exact absurd hd (List.not_mem_nil _)
    · intro hc; exact absurd rfl hc
  · rw [if_neg hemp]
    have hinv := resolve_labInv elevations flowdirs
    constructor
    · constructor
      · intro hc
        exact hinv.sound c hc
      · rintro ⟨d, hd, hr⟩
        exact hinv.complete d hd c hr
    · intro hc hcc
      rcases hinv.range c with hr | ⟨hk0, hkn⟩
      · exact absurd hr hc
      obtain ⟨s0, hs0g, hiff⟩ := hinv.classes _ hk0 hkn
      have h1 : EqReach elevations flowdirs.width flowdirs.height s0 c :=
        (hiff c).mp rfl
      have h2 : EqReach elevations flowdirs.width flowdirs.height s0 c' :=
        (hiff c').mp hcc
      constructor
      · rw [eqReach_elev h2, eqReach_elev h1]
      · have hback := eqReach_symm_within elevations flowdirs.width flowdirs.height
          s0 hs0g h1
        have hfwd := eqReach_annotate elevations flowdirs.width flowdirs.height
          s0 h2
        have hmap : ∀ a b : Cell,
            (reachStep elevations flowdirs.width flowdirs.height a b ∧
              EqReach elevations flowdirs.width flowdirs.height s0 b) →
            (adjacent a b ∧ inGrid b.1 b.2 flowdirs.width flowdirs.height = true ∧
              (resolveLabels elevations flowdirs).1 b =
                (resolveLabels elevations flowdirs).1 c) := by
          intro a b hab
          exact ⟨hab.1.1, hab.1.2.1, (hiff b).mpr hab.2⟩
        exact Relation.ReflTransGen.trans
          (Relation.ReflTransGen.mono hmap hback)
          (Relation.ReflTransGen.mono hmap hfwd)

/-- Witness for `C2_label_partition` at the single-row input. -/
theorem C2_witness :
    (((resolve_flats_barnes elSR fdSR).labels (1, 0) ≠ -1 ↔
      ∃ d ∈ (resolve_flats_barnes elSR fdSR).lowEdges,
        EqReach elSR fdSR.width fdSR.height d (1, 0)) ∧
    ((resolve_flats_barnes elSR fdSR).labels (1, 0) ≠ -1 →
      (resolve_flats_barnes elSR fdSR).labels (2, 0) =
        (resolve_flats_barnes elSR fdSR).labels (1, 0) →
      elSR.get 2 0 = elSR.get 1 0 ∧
      Relation.ReflTransGen (fun a b => adjacent a b ∧
        inGrid b.1 b.2 fdSR.width fdSR.height = true ∧
        (resolve_flats_barnes elSR fdSR).labels b =
          (resolve_flats_barnes elSR fdSR).labels (1, 0)) (1, 0) (2, 0))) :=
  C2_label_partition elSR fdSR (1, 0) (2, 0)

/-! ## Soundness of the `BuildGradient` walk -/

/-- An incrementation entry can change only at a cell reachable (along
equal-elevation in-grid walks) from some non-marker cell of the current
queue. -/
theorem bg_incr_reach (elevations flowdirs : Grid) (labels : Cell → Int) :
    ∀ (n : Nat) (s : BGState) (c : Cell),
      (iterRun bgDone (bgStep elevations flowdirs labels) n s).incr c ≠ s.incr c →
      ∃ d ∈ s.queue, d.1 ≠ -1 ∧
        EqReach elevations elevations.width elevations.height d c := by
  intro n
  induction n with
  | zero => intro s c hc; exact absurd rfl hc
  | succ n ih =>
    intro s c hc
    cases hdone : bgDone s with
    | true => rw [iterRun_of_done (n + 1) hdone] at hc; exact absurd rfl hc
    | false =>
      have hrun : iterRun bgDone (bgStep elevations flowdirs labels) (n + 1) s =
          iterRun bgDone (bgStep elevations flowdirs labels) n
            (bgStep elevations flowdirs labels s) := by
        rw [iterRun_succ, hdone]; simp
      rw [hrun] at hc
      cases hq : s.queue with
      | nil =>
        rw [bgStep_nil hq] at hc
        obtain ⟨q, hqm, -, -⟩ := ih s c hc
        rw [hq] at hqm
        exact absurd hqm (List.not_mem_nil _)
      | cons d rest =>
        by_cases hd1 : d.1 = -1
        · rw [bgStep_marker hq hd1] at hc
          obtain ⟨q, hqm, hq1, hqr⟩ := ih _ c hc
          rcases List.mem_append.mp hqm with hm | hm
          · exact ⟨q, List.mem_cons_of_mem _ hm, hq1, hqr⟩
          · rw [List.mem_singleton] at hm
            subst hm
            exact absurd rfl hq1
        · by_cases hpos : s.incr d > 0
          · rw [bgStep_skip hq hd1 hpos] at hc
            obtain ⟨q, hqm, hq1, hqr⟩ := ih _ c hc
            exact ⟨q, List.mem_cons_of_mem _ hqm, hq1, hqr⟩
          · rw [bgStep_assign hq hd1 hpos] at hc
            by_cases hch : upd s.incr d s.loops c = s.incr c
            · rw [← hch] at hc
              obtain ⟨q, hqm, hq1, hqr⟩ := ih _ c hc
              rcases List.mem_append.mp hqm with hm | hm
              · exact ⟨q, List.mem_cons_of_mem _ hm, hq1, hqr⟩
              · obtain ⟨hg, hel, _, hadj⟩ := bgPush_mem hm
                refine ⟨d, List.mem_cons_self _ _, hd1, ?_⟩
                exact Relation.ReflTransGen.trans
                  (Relation.ReflTransGen.single ⟨hadj, hg, hel⟩) hqr
            · have hcd : c = d := by
                by_contra hne
                exact hch (upd_other _ _ _ _ hne)
              subst hcd
              exact ⟨c, List.mem_cons_self _ _, hd1, Relation.ReflTransGen.refl⟩

/-! ## Claim C9 -/

/-- C9: with matching grid dimensions, every cell at which
`flat_height[labels(x,y)]` is indexed holds a label in `[0, group_number)`:
cells incremented by the `towards` pass (indexed at line 69 of the first
`BuildGradient` call), cells incremented by the `away` pass (second call),
and cells whose mask is written with an `away` contribution by
`CombineGradients` (read at line 140). -/
theorem C9_flat_height_bounds (elevations flowdirs : Grid)
    (hw : elevations.width = flowdirs.width)
    (hh : elevations.height = flowdirs.height) (c : Cell) :
    ((resolve_flats_barnes elevations flowdirs).towards c ≠ 0 →
      0 ≤ (resolve_flats_barnes elevations flowdirs).labels c ∧
      (resolve_flats_barnes elevations flowdirs).labels c <
        (resolve_flats_barnes elevations flowdirs).groupCount) ∧
    ((resolve_flats_barnes elevations flowdirs).away c ≠ 0 →
      0 ≤ (resolve_flats_barnes elevations flowdirs).labels c ∧
      (resolve_flats_barnes elevations flowdirs).labels c <
        (resolve_flats_barnes elevations flowdirs).groupCount) ∧
    ((resolve_flats_barnes elevations flowdirs).mask c ≠ -1 →
      0 < (resolve_flats_barnes elevations flowdirs).away c →
      0 ≤ (resolve_flats_barnes elevations flowdirs).labels c ∧
      (resolve_flats_barnes elevations flowdirs).labels c <
        (resolve_flats_barnes elevations flowdirs).groupCount) := by
  unfold resolve_flats_barnes
  by_cases hemp : (find_flat_edges flowdirs elevations).1.isEmpty = true
  · rw [if_pos hemp]
    exact ⟨fun hc => absurd rfl hc, fun hc => absurd rfl hc,
      fun hc => absurd rfl hc⟩
  · rw [if_neg hemp]
    have hinv := resolve_labInv elevations flowdirs
    have hlabel_of_reach : ∀ d, d ∈ (find_flat_edges flowdirs elevations).1 →
        EqReach elevations elevations.width elevations.height d c →
        0 ≤ (resolveLabels elevations flowdirs).1 c ∧
        (resolveLabels elevations flowdirs).1 c <
          (resolveLabels elevations flowdirs).2 := by
      intro d hd hr
      rw [hw, hh] at hr
      have hne := hinv.complete d hd c hr
      rcases hinv.range c with h2 | h2
      · exact absurd h2 hne
      · exact h2
    have htow : (resolveBgT elevations flowdirs).incr c ≠ 0 →
        0 ≤ (resolveLabels elevations flowdirs).1 c ∧
        (resolveLabels elevations flowdirs).1 c <
          (resolveLabels elevations flowdirs).2 := by
      intro hc
      unfold resolveBgT BuildGradient at hc
      obtain ⟨d, hdm, hd1, hdr⟩ := bg_incr_reach elevations flowdirs
        (resolveLabels elevations flowdirs).1 _ _ c hc
      rcases List.mem_append.mp hdm with hm | hm
      · exact hlabel_of_reach d hm hdr
      · rw [List.mem_singleton] at hm
        subst hm
        exact absurd rfl hd1
    have haway : (resolveBgA elevations flowdirs).incr c ≠ 0 →
        0 ≤ (resolveLabels elevations flowdirs).1 c ∧
        (resolveLabels elevations flowdirs).1 c <
          (resolveLabels elevations flowdirs).2 := by
      intro hc
      unfold resolveBgA BuildGradient at hc
      obtain ⟨d, hdm, hd1, hdr⟩ := bg_incr_reach elevations flowdirs
        (resolveLabels elevations flowdirs).1 _ _ c hc
      rcases List.mem_append.mp hdm with hm | hm
      · -- d is a filtered high edge: it already carries a label
        unfold resolveHigh2 at hm
        rw [List.mem_filter] at hm
        have hdlab : (resolveLabels elevations flowdirs).1 d ≠ -1 := by
          have := hm.2
          simpa using this
        rcases hinv.range d with h2 | ⟨hk0, hkn⟩
        · exact absurd h2 hdlab
        · obtain ⟨s0, _, hiff⟩ := hinv.classes _ hk0 hkn
          have h1 : EqReach elevations flowdirs.width flowdirs.height s0 d :=
            (hiff d).mp rfl
          rw [hw, hh] at hdr
          have h3 : (resolveLabels elevations flowdirs).1 c =
              (resolveLabels elevations flowdirs).1 d :=
            (hiff c).mpr (eqReach_trans h1 hdr)
          rw [h3]
          exact ⟨hk0, hkn⟩
      · rw [List.mem_singleton] at hm
        subst hm
        exact absurd rfl hd1
    refine ⟨htow, haway, ?_⟩
    intro hmask haw
    refine htow ?_
    have hchar := cg_mask_char elevations (resolveBgA elevations flowdirs).incr
      (resolveBgA elevations flowdirs).fh (resolveLabels elevations flowdirs).1
      (cgFuel elevations.width elevations.height
        (find_flat_edges flowdirs elevations).1.length)
      { towards := (resolveBgT elevations flowdirs).incr, mask := fun _ => -1,
        queue := (find_flat_edges flowdirs elevations).1 } c
    by_cases hcond : (resolveCG elevations flowdirs).towards c = -1 ∧
        0 < (resolveBgT elevations flowdirs).incr c
    · intro h0
      rw [h0] at hcond
      omega
    · exfalso
      apply hmask
      have := hchar.2 hcond
      exact this

/-- Witness for `C9_flat_height_bounds` at the single-row input. -/
theorem C9_witness :
    (elSR.width = fdSR.width) ∧ (elSR.height = fdSR.height) ∧
    (((resolve_flats_barnes elSR fdSR).towards (1, 0) ≠ 0 →
      0 ≤ (resolve_flats_barnes elSR fdSR).labels (1, 0) ∧
      (resolve_flats_barnes elSR fdSR).labels (1, 0) <
        (resolve_flats_barnes elSR fdSR).groupCount) ∧
    ((resolve_flats_barnes elSR fdSR).away (1, 0) ≠ 0 →
      0 ≤ (resolve_flats_barnes elSR fdSR).labels (1, 0) ∧
      (resolve_flats_barnes elSR fdSR).labels (1, 0) <
        (resolve_flats_barnes elSR fdSR).groupCount) ∧
    ((resolve_flats_barnes elSR fdSR).mask (1, 0) ≠ -1 →
      0 < (resolve_flats_barnes elSR fdSR).away (1, 0) →
      0 ≤ (resolve_flats_barnes elSR fdSR).labels (1, 0) ∧
      (resolve_flats_barnes elSR fdSR).labels (1, 0) <
        (resolve_flats_barnes elSR fdSR).groupCount)) :=
  ⟨rfl, rfl, C9_flat_height_bounds elSR fdSR rfl rfl (1, 0)⟩

/-! ## Layer structure of the `BuildGradient` queue -/

/-- The queue segment before the iteration marker (the current layer). -/
def bgFront : List Cell → List Cell
  | [] => []
  | c :: rest => if c.1 = -1 then [] else c :: bgFront rest

/-- The queue segment after the iteration marker (the next layer). -/
def bgBack : List Cell → List Cell
  | [] => []
  | c :: rest => if c.1 = -1 then rest else bgBack rest

theorem bgFront_cons_marker {c : Cell} (L : List Cell) (hc : c.1 = -1) :
    bgFront (c :: L) = [] := by
  show (if c.1 = -1 then [] else c :: bgFront L) = []
  rw [if_pos hc]

theorem bgFront_cons_ne {c : Cell} (L : List Cell) (hc : c.1 ≠ -1) :
    bgFront (c :: L) = c :: bgFront L := by
  show (if c.1 = -1 then [] else c :: bgFront L) = c :: bgFront L
  rw [if_neg hc]

theorem bgBack_cons_marker {c : Cell} (L : List Cell) (hc : c.1 = -1) :
    bgBack (c :: L) = L := by
  show (if c.1 = -1 then L else bgBack L) = L
  rw [if_pos hc]

theorem bgBack_cons_ne {c : Cell} (L : List Cell) (hc : c.1 ≠ -1) :
    bgBack (c :: L) = bgBack L := by
  show (if c.1 = -1 then L else bgBack L) = bgBack L
  rw [if_neg hc]

theorem bgFront_append_marker :
    ∀ (L X : List Cell), (∃ c ∈ L, c.1 = -1) → bgFront (L ++ X) = bgFront L := by
  intro L
  induction L with
  | nil =>
    intro X hm
    obtain ⟨c, hc, -⟩ := hm
    exact absurd hc (List.not_mem_nil _)
  | cons c L2 ih =>
    intro X hm
    by_cases hc : c.1 = -1
    · rw [List.cons_append, bgFront_cons_marker _ hc, bgFront_cons_marker _ hc]
    · rw [List.cons_append, bgFront_cons_ne _ hc, bgFront_cons_ne _ hc]
      obtain ⟨d, hd, hd1⟩ := hm
      rcases List.mem_cons.mp hd with hd2 | hd2
      · subst hd2; exact absurd hd1 hc
      · rw [ih X ⟨d, hd2, hd1⟩]

theorem bgBack_append_marker :
    ∀ (L X : List Cell), (∃ c ∈ L, c.1 = -1) → bgBack (L ++ X) = bgBack L ++ X := by
  intro L
  induction L with
  | nil =>
    intro X hm
    obtain ⟨c, hc, -⟩ := hm
    exact absurd hc (List.not_mem_nil _)
  | cons c L2 ih =>
    intro X hm
    by_cases hc : c.1 = -1
    · rw [List.cons_append, bgBack_cons_marker _ hc, bgBack_cons_marker _ hc]
    · rw [List.cons_append, bgBack_cons_ne _ hc, bgBack_cons_ne _ hc]
      obtain ⟨d, hd, hd1⟩ := hm
      rcases List.mem_cons.mp hd with hd2 | hd2
      · subst hd2; exact absurd hd1 hc
      · exact ih X ⟨d, hd2, hd1⟩

theorem bgFront_no_marker :
    ∀ (L X : List Cell), (∀ c ∈ L, c.1 ≠ -1) →
      bgFront (L ++ markerCell :: X) = L := by
  intro L
  induction L with
  | nil => intro X _; rw [List.nil_append, bgFront_cons_marker _ rfl]
  | cons c L2 ih =>
    intro X hm
    rw [List.cons_append, bgFront_cons_ne _ (hm c (List.mem_cons_self _ _))]
    rw [ih X fun d hd => hm d (List.mem_cons_of_mem _ hd)]

theorem bgBack_no_marker :
    ∀ (L X : List Cell), (∀ c ∈ L, c.1 ≠ -1) →
      bgBack (L ++ markerCell :: X) = X := by
  intro L
  induction L with
  | nil => intro X _; rw [List.nil_append, bgBack_cons_marker _ rfl]
  | cons c L2 ih =>
    intro X hm
    rw [List.cons_append, bgBack_cons_ne _ (hm c (List.mem_cons_self _ _))]
    exact ih X fun d hd => hm d (List.mem_cons_of_mem _ hd)

theorem inGridCells_ne_marker {elevations : Grid} {L : List Cell}
    (hL : inGridCells elevations L) : ∀ c ∈ L, c.1 ≠ -1 :=
  fun c hc => inGrid_x_nonneg (hL c hc)

/-- Only seed cells can end with incrementation `1`: the first marker pop
raises `loops` to `2` before any pushed cell is popped. -/
theorem bg_incr_one_seed (elevations flowdirs : Grid) (labels : Cell → Int)
    (seeds : List Cell) (fh0 : Int → Int)
    (hin : inGridCells elevations seeds) (c : Cell)
    (hc : (BuildGradient elevations flowdirs (fun _ => 0) seeds fh0 labels).incr c = 1) :
    c ∈ seeds := by
  have hrun := @iterRun_inv BGState bgDone (bgStep elevations flowdirs labels)
    (fun s : BGState => BGInv elevations s ∧
      (∀ x, s.incr x = 1 → x ∈ seeds) ∧
      (s.loops = 1 → ∀ x ∈ bgFront s.queue, x ∈ seeds))
    ?_
    (bgFuel elevations.width elevations.height seeds.length)
    { incr := fun _ => 0, fh := fh0, queue := seeds ++ [markerCell], loops := 1 }
    ?_
  · exact hrun.2.1 c hc
  · intro s hs hdone
    obtain ⟨hinv, hJ1, hJ2⟩ := hs
    refine ⟨bg_inv_step elevations flowdirs labels s hinv hdone, ?_⟩
    obtain ⟨A, B, hQ, hA, hB⟩ := hinv.decomp
    cases hq : s.queue with
    | nil => rw [hq] at hQ; exact absurd hQ.symm (by simp)
    | cons x rest =>
      rcases bg_head_cases hQ hA hq with ⟨hcm, hA0, hrest⟩ | ⟨hcg, A2, hAeq, hrest⟩
      · have hx1 : x.1 = -1 := by rw [hcm]; rfl
        rw [bgStep_marker hq hx1]
        constructor
        · intro y hy; exact hJ1 y hy
        · intro hl
          exfalso
          have := hinv.loops_pos
          have hl2 : s.loops + 1 = 1 := hl
          omega
      · have hx1 : x.1 ≠ -1 := inGrid_x_nonneg hcg
        have hfront : bgFront s.queue = x :: bgFront rest := by
          rw [hq, bgFront_cons_ne _ hx1]
        have hfrontrest : bgFront rest = A2 := by
          rw [hrest]
          exact bgFront_no_marker A2 B fun d hd =>
            inGrid_x_nonneg (hA d (by rw [hAeq]; exact List.mem_cons_of_mem _ hd))
        by_cases hpos : s.incr x > 0
        · rw [bgStep_skip hq hx1 hpos]
          refine ⟨fun y hy => hJ1 y hy, ?_⟩
          intro hl x2 hx2
          refine hJ2 hl x2 ?_
          rw [hfront, hfrontrest]
          rw [hfrontrest] at hx2
          exact List.mem_cons_of_mem _ hx2
        · rw [bgStep_assign hq hx1 hpos]
          constructor
          · intro y hy
            show y ∈ seeds
            by_cases hyx : y = x
            · subst hyx
              have hy2 : upd s.incr y s.loops y = 1 := hy
              rw [upd_same] at hy2
              refine hJ2 hy2 y ?_
              rw [hfront]
              exact List.mem_cons_self _ _
            · have hy2 : upd s.incr x s.loops y = 1 := hy
              rw [upd_other _ _ _ _ hyx] at hy2
              exact hJ1 y hy2
          · intro hl x2 hx2
            have hmark : ∃ d ∈ rest, d.1 = -1 := by
              refine ⟨markerCell, ?_, rfl⟩
              rw [hrest]
              exact List.mem_append.mpr (Or.inr (List.mem_cons_self _ _))
            have hfr2 : bgFront (rest ++ bgPush elevations flowdirs x) =
                bgFront rest := bgFront_append_marker rest _ hmark
            have hx3 : x2 ∈ bgFront rest := by
              have hx2b : x2 ∈ bgFront (rest ++ bgPush elevations flowdirs x) := hx2
              rw [hfr2] at hx2b
              exact hx2b
            refine hJ2 hl x2 ?_
            rw [hfront]
            exact List.mem_cons_of_mem _ hx3
  · refine ⟨bg_initial_inv elevations flowdirs fh0 seeds hin, ?_, ?_⟩
    · intro x hx
      exfalso
      have hx2 : (0 : Int) = 1 := hx
      omega
    · intro _ x hx
      have hfr : bgFront (seeds ++ [markerCell]) = seeds :=
        bgFront_no_marker seeds [] (inGridCells_ne_marker hin)
      rw [hfr] at hx
      exact hx

/-- `flat_height` dominates the incrementation at every assigned cell: every
assignment writes the current layer number at the cell's label (line 69), and
later writes to the same label carry layer numbers at least as large. -/
theorem bg_fh_ge (elevations flowdirs : Grid) (labels : Cell → Int)
    (seeds : List Cell) (fh0 : Int → Int)
    (hin : inGridCells elevations seeds) (c : Cell)
    (hc : 1 ≤ (BuildGradient elevations flowdirs (fun _ => 0) seeds fh0 labels).incr c) :
    (BuildGradient elevations flowdirs (fun _ => 0) seeds fh0 labels).incr c ≤
      (BuildGradient elevations flowdirs (fun _ => 0) seeds fh0 labels).fh (labels c) := by
  have hrun := @iterRun_inv BGState bgDone (bgStep elevations flowdirs labels)
    (fun s : BGState => BGInv elevations s ∧
      (∀ x, 1 ≤ s.incr x → s.incr x ≤ s.fh (labels x)))
    ?_
    (bgFuel elevations.width elevations.height seeds.length)
    { incr := fun _ => 0, fh := fh0, queue := seeds ++ [markerCell], loops := 1 }
    ?_
  · exact hrun.2 c hc
  · intro s hs hdone
    obtain ⟨hinv, hF⟩ := hs
    refine ⟨bg_inv_step elevations flowdirs labels s hinv hdone, ?_⟩
    cases hq : s.queue with
    | nil => rw [bgStep_nil hq]; exact hF
    | cons x rest =>
      by_cases hx1 : x.1 = -1
      · rw [bgStep_marker hq hx1]; exact hF
      · by_cases hpos : s.incr x > 0
        · rw [bgStep_skip hq hx1 hpos]; exact hF
        · rw [bgStep_assign hq hx1 hpos]
          intro y hy
          show upd s.incr x s.loops y ≤ updI s.fh (labels x) s.loops (labels y)
          by_cases hly : labels y = labels x
          · have hfh : updI s.fh (labels x) s.loops (labels y) = s.loops := by
              unfold updI
              rw [if_pos hly]
            rw [hfh]
            by_cases hyx : y = x
            · subst hyx; rw [upd_same]
            · rw [upd_other _ _ _ _ hyx]
              exact (hinv.incr_le y).2
          · have hfh : updI s.fh (labels x) s.loops (labels y) = s.fh (labels y) := by
              unfold updI
              rw [if_neg hly]
            rw [hfh]
            by_cases hyx : y = x
            · subst hyx; exact absurd rfl hly
            · rw [upd_other _ _ _ _ hyx]
              refine hF y ?_
              have hy2 : upd s.incr x s.loops y = s.incr y := upd_other _ _ _ _ hyx
              rw [← hy2]
              exact hy
  · refine ⟨bg_initial_inv elevations flowdirs fh0 seeds hin, ?_⟩
    intro x hx
    exfalso
    have hx2 : (1 : Int) ≤ 0 := hx
    omega

/-! ## Layer adjacency in `BuildGradient` -/

/-- Eligibility for a `BuildGradient` push (lines 70–76): an in-grid
(elevation-grid bounds) equal-elevation `NO_FLOW` 8-neighbour. -/
def bgElig (elevations flowdirs : Grid) (a b : Cell) : Prop :=
  adjacent a b ∧ inGrid b.1 b.2 elevations.width elevations.height = true ∧
  elevations.get b.1 b.2 = elevations.get a.1 a.2 ∧
  flowdirs.get b.1 b.2 = NO_FLOW

theorem bgPush_mem_of {elevations flowdirs : Grid} {a b : Cell}
    (h : bgElig elevations flowdirs a b) : b ∈ bgPush elevations flowdirs a := by
  obtain ⟨⟨o, ho, rfl⟩, hg, hel, hnf⟩ := h
  unfold bgPush
  rw [List.mem_filterMap]
  exact ⟨o, ho, by rw [if_pos ⟨hg, hel, hnf⟩]⟩

/-- The layer-adjacency invariant: for an assigned cell `a` and an eligible
neighbour `b`, either `b` is already assigned within one layer of `a`, or
`b` is still queued in the current layer (popped at `≤ incr a + 1`) or in
the next layer (popped at `≤ incr a + 1` after the marker). -/
def bgInv2 (elevations flowdirs : Grid) (s : BGState) : Prop :=
  ∀ a b, 0 < s.incr a → bgElig elevations flowdirs a b →
    ((0 < s.incr b ∧ s.incr b ≤ s.incr a + 1) ∨
     (b ∈ bgFront s.queue ∧ s.loops ≤ s.incr a + 1) ∨
     (b ∈ bgBack s.queue ∧ s.loops ≤ s.incr a))

theorem bg_inv2_step (elevations flowdirs : Grid) (labels : Cell → Int)
    (s : BGState) (hinv : BGInv elevations s)
    (h2 : bgInv2 elevations flowdirs s) (hdone : bgDone s = false) :
    bgInv2 elevations flowdirs (bgStep elevations flowdirs labels s) := by
  obtain ⟨A, B, hQ, hA, hB⟩ := hinv.decomp
  cases hq : s.queue with
  | nil => rw [hq] at hQ; exact absurd hQ.symm (by simp)
  | cons x rest =>
    rcases bg_head_cases hQ hA hq with ⟨hcm, hA0, hrest⟩ | ⟨hcg, A2, hAeq, hrest⟩
    · -- marker pop
      have hx1 : x.1 = -1 := by rw [hcm]; rfl
      have hfrontold : bgFront s.queue = [] := by
        rw [hq, bgFront_cons_marker _ hx1]
      have hbackold : bgBack s.queue = rest := by
        rw [hq, bgBack_cons_marker _ hx1]
      have hBne : ∀ d ∈ rest, d.1 ≠ -1 := by
        intro d hd
        refine inGrid_x_nonneg (hB d ?_)
        rw [← hrest]; exact hd
      rw [bgStep_marker hq hx1]
      intro a b ha hel
      rcases h2 a b ha hel with hD | ⟨hm, hl⟩ | ⟨hm, hl⟩
      · left; exact hD
      · rw [hfrontold] at hm
        exact absurd hm (List.not_mem_nil _)
      · rw [hbackold] at hm
        right; left
        constructor
        · show b ∈ bgFront (rest ++ [markerCell])
          have : bgFront (rest ++ markerCell :: []) = rest := bgFront_no_marker rest [] hBne
          rw [this]
          exact hm
        · show s.loops + 1 ≤ s.incr a + 1
          omega
    · -- cell pop
      have hx1 : x.1 ≠ -1 := inGrid_x_nonneg hcg
      have hA2ne : ∀ d ∈ A2, d.1 ≠ -1 := by
        intro d hd
        refine inGrid_x_nonneg (hA d ?_)
        rw [hAeq]; exact List.mem_cons_of_mem _ hd
      have hfrontold : bgFront s.queue = x :: A2 := by
        rw [hq, bgFront_cons_ne _ hx1, hrest, bgFront_no_marker A2 B hA2ne]
      have hbackold : bgBack s.queue = B := by
        rw [hq, bgBack_cons_ne _ hx1, hrest, bgBack_no_marker A2 B hA2ne]
      have hfrontrest : bgFront rest = A2 := by
        rw [hrest]; exact bgFront_no_marker A2 B hA2ne
      have hbackrest : bgBack rest = B := by
        rw [hrest]; exact bgBack_no_marker A2 B hA2ne
      by_cases hpos : s.incr x > 0
      · rw [bgStep_skip hq hx1 hpos]
        intro a b ha hel
        rcases h2 a b ha hel with hD | ⟨hm, hl⟩ | ⟨hm, hl⟩
        · left; exact hD
        · rw [hfrontold] at hm
          rcases List.mem_cons.mp hm with hm2 | hm2
          · subst hm2
            left
            show 0 < s.incr b ∧ s.incr b ≤ s.incr a + 1
            have h3 := (hinv.incr_le b).2
            exact ⟨hpos, by omega⟩
          · right; left
            show b ∈ bgFront rest ∧ s.loops ≤ s.incr a + 1
            rw [hfrontrest]
            exact ⟨hm2, hl⟩
        · right; right
          show b ∈ bgBack rest ∧ s.loops ≤ s.incr a
          rw [hbackrest, ← hbackold]
          exact ⟨hm, hl⟩
      · rw [bgStep_assign hq hx1 hpos]
        have hmark : ∃ d ∈ rest, d.1 = -1 := by
          refine ⟨markerCell, ?_, rfl⟩
          rw [hrest]
          exact List.mem_append.mpr (Or.inr (List.mem_cons_self _ _))
        have hfrontnew : bgFront (rest ++ bgPush elevations flowdirs x) = A2 := by
          rw [bgFront_append_marker rest _ hmark, hfrontrest]
        have hbacknew : bgBack (rest ++ bgPush elevations flowdirs x) =
            B ++ bgPush elevations flowdirs x := by
          rw [bgBack_append_marker rest _ hmark, hbackrest]
        intro a b ha hel
        show (0 < upd s.incr x s.loops b ∧
            upd s.incr x s.loops b ≤ upd s.incr x s.loops a + 1) ∨
          (b ∈ bgFront (rest ++ bgPush elevations flowdirs x) ∧
            s.loops ≤ upd s.incr x s.loops a + 1) ∨
          (b ∈ bgBack (rest ++ bgPush elevations flowdirs x) ∧
            s.loops ≤ upd s.incr x s.loops a)
        rw [hfrontnew, hbacknew]
        by_cases hax : a = x
        · subst hax
          right; right
          rw [upd_same]
          constructor
          · exact List.mem_append.mpr (Or.inr (bgPush_mem_of hel))
          · exact le_refl _
        · have ha2 : 0 < s.incr a := by
            have : upd s.incr x s.loops a = s.incr a := upd_other _ _ _ _ hax
            rw [← this]
            exact ha
          rw [upd_other _ _ _ _ hax]
          rcases h2 a b ha2 hel with ⟨hb1, hb2⟩ | ⟨hm, hl⟩ | ⟨hm, hl⟩
          · left
            have hbx : b ≠ x := by
              intro hbx
              subst hbx
              omega
            rw [upd_other _ _ _ _ hbx]
            exact ⟨hb1, hb2⟩
          · rw [hfrontold] at hm
            rcases List.mem_cons.mp hm with hm2 | hm2
            · subst hm2
              left
              rw [upd_same]
              have := hinv.loops_pos
              exact ⟨by omega, hl⟩
            · right; left
              exact ⟨hm2, hl⟩
          · right; right
            rw [hbackold] at hm
            exact ⟨List.mem_append.mpr (Or.inl hm), hl⟩

/-- Layer adjacency of a completed `BuildGradient` run: an assigned cell's
eligible neighbour is assigned, at most one layer later. -/
theorem bg_layer_adjacent (elevations flowdirs : Grid) (labels : Cell → Int)
    (seeds : List Cell) (fh0 : Int → Int)
    (hin : inGridCells elevations seeds) (a b : Cell)
    (ha : 0 < (BuildGradient elevations flowdirs (fun _ => 0) seeds fh0 labels).incr a)
    (hel : bgElig elevations flowdirs a b) :
    0 < (BuildGradient elevations flowdirs (fun _ => 0) seeds fh0 labels).incr b ∧
    (BuildGradient elevations flowdirs (fun _ => 0) seeds fh0 labels).incr b ≤
      (BuildGradient elevations flowdirs (fun _ => 0) seeds fh0 labels).incr a + 1 := by
  have hinv0 := bg_initial_inv elevations flowdirs fh0 seeds hin
  have hrun := @iterRun_inv BGState bgDone (bgStep elevations flowdirs labels)
    (fun s : BGState => BGInv elevations s ∧ bgInv2 elevations flowdirs s)
    (fun t ht hd => ⟨bg_inv_step elevations flowdirs labels t ht.1 hd,
      bg_inv2_step elevations flowdirs labels t ht.1 ht.2 hd⟩)
    (bgFuel elevations.width elevations.height seeds.length)
    { incr := fun _ => 0, fh := fh0, queue := seeds ++ [markerCell], loops := 1 }
    ⟨hinv0, fun a2 b2 ha2 _ => absurd ha2 (by
      intro hlt
      have : (0 : Int) < 0 := hlt
      omega)⟩
  have hdone := bg_run_done elevations flowdirs labels _ _ hinv0
    (bg_initial_measure elevations (fun _ => 0) fh0 seeds 1)
  have hqfin := bg_done_queue hrun.1 hdone
  have h2fin := hrun.2
  unfold BuildGradient at ha ⊢
  rcases h2fin a b ha hel with hD | ⟨hm, -⟩ | ⟨hm, -⟩
  · exact hD
  · rw [hqfin] at hm
    rw [bgFront_cons_marker _ rfl] at hm
    exact absurd hm (List.not_mem_nil _)
  · rw [hqfin] at hm
    rw [bgBack_cons_marker _ rfl] at hm
    exact absurd hm (List.not_mem_nil _)

/-! ## Completion and closure of the `CombineGradients` walk -/

/-- Invariant for the `CombineGradients` loop: queued cells are in grid and
`towards` never drops below `-1`. -/
structure CGInv (elevations : Grid) (s : CGState) : Prop where
  qin : ∀ q ∈ s.queue, inGrid q.1 q.2 elevations.width elevations.height = true
  tw : ∀ c, -1 ≤ s.towards c

theorem cgStep_nil {elevations : Grid} {away : Cell → Int} {fh : Int → Int}
    {labels : Cell → Int} {s : CGState} (hq : s.queue = []) :
    cgStep elevations away fh labels s = s := by
  unfold cgStep
  rw [hq]

theorem cgStep_skip {elevations : Grid} {away : Cell → Int} {fh : Int → Int}
    {labels : Cell → Int} {s : CGState} {c : Cell} {rest : List Cell}
    (hq : s.queue = c :: rest) (hc : s.towards c = -1) :
    cgStep elevations away fh labels s =
      { towards := s.towards, mask := s.mask, queue := rest } := by
  unfold cgStep
  rw [hq]
  simp [hc]

theorem cgStep_proc {elevations : Grid} {away : Cell → Int} {fh : Int → Int}
    {labels : Cell → Int} {s : CGState} {c : Cell} {rest : List Cell}
    (hq : s.queue = c :: rest) (hc : ¬ s.towards c = -1) :
    cgStep elevations away fh labels s =
      { towards := upd s.towards c (-1),
        mask := if s.towards c > 0 then
            upd s.mask c (cgMaskValue away fh labels (s.towards c) c)
          else s.mask,
        queue := rest ++ cgPush elevations c } := by
  unfold cgStep
  rw [hq]
  simp only [if_neg hc]

theorem cg_inv_step (elevations : Grid) (away : Cell → Int) (fh : Int → Int)
    (labels : Cell → Int) (s : CGState) (hinv : CGInv elevations s)
    (hdone : cgDone s = false) :
    CGInv elevations (cgStep elevations away fh labels s) := by
  cases hq : s.queue with
  | nil => rw [cgStep_nil hq]; exact hinv
  | cons c rest =>
    by_cases hc : s.towards c = -1
    · rw [cgStep_skip hq hc]
      refine ⟨?_, hinv.tw⟩
      intro q hqm
      exact hinv.qin q (by rw [hq]; exact List.mem_cons_of_mem _ hqm)
    · rw [cgStep_proc hq hc]
      constructor
      · intro q hqm
        rcases List.mem_append.mp hqm with hm | hm
        · exact hinv.qin q (by rw [hq]; exact List.mem_cons_of_mem _ hm)
        · exact (cgPush_mem hm).2.1
      · intro x
        show -1 ≤ upd s.towards c (-1) x
        by_cases hxc : x = c
        · subst hxc; rw [upd_same]
        · rw [upd_other _ _ _ _ hxc]; exact hinv.tw x

/-- Number of in-grid cells whose `towards` entry is not yet consumed. -/
def cgV (elevations : Grid) (s : CGState) : Nat :=
  ((cellList elevations.width elevations.height).filter fun c =>
    decide (0 ≤ s.towards c)).length

def cgMeasure (elevations : Grid) (s : CGState) : Nat :=
  9 * cgV elevations s + s.queue.length

theorem cg_measure_dec (elevations : Grid) (away : Cell → Int) (fh : Int → Int)
    (labels : Cell → Int) (s : CGState) (hinv : CGInv elevations s)
    (hdone : cgDone s = false) :
    cgMeasure elevations (cgStep elevations away fh labels s) <
      cgMeasure elevations s := by
  cases hq : s.queue with
  | nil => rw [cgDone, hq] at hdone; simp at hdone
  | cons c rest =>
    have hlen : s.queue.length = rest.length + 1 := by rw [hq]; rfl
    by_cases hc : s.towards c = -1
    · rw [cgStep_skip hq hc]
      show 9 * cgV elevations { towards := s.towards, mask := s.mask, queue := rest } +
        rest.length < 9 * cgV elevations s + s.queue.length
      have hV : cgV elevations { towards := s.towards, mask := s.mask, queue := rest } =
          cgV elevations s := rfl
      rw [hV, hlen]
      omega
    · rw [cgStep_proc hq hc]
      have hcg := hinv.qin c (by rw [hq]; exact List.mem_cons_self _ _)
      show 9 * cgV elevations
          { towards := upd s.towards c (-1),
            mask := if s.towards c > 0 then
                upd s.mask c (cgMaskValue away fh labels (s.towards c) c)
              else s.mask,
            queue := rest ++ cgPush elevations c } +
          (rest ++ cgPush elevations c).length <
        9 * cgV elevations s + s.queue.length
      have hVlt : cgV elevations
          { towards := upd s.towards c (-1),
            mask := if s.towards c > 0 then
                upd s.mask c (cgMaskValue away fh labels (s.towards c) c)
              else s.mask,
            queue := rest ++ cgPush elevations c } < cgV elevations s := by
        unfold cgV
        refine filter_length_lt _ _ c ?_ ?_ ?_ _ (cellList_mem_of_inGrid hcg)
        · have := hinv.tw c
          simp only [decide_eq_true_eq]
          omega
        · show decide (0 ≤ upd s.towards c (-1) c) = false
          rw [upd_same]
          simp
        · intro d hdc
          show decide (0 ≤ upd s.towards c (-1) d) = decide (0 ≤ s.towards d)
          rw [upd_other _ _ _ _ hdc]
      have hpush : (cgPush elevations c).length ≤ 8 := by
        have h8 := List.length_filterMap_le (fun o : Cell =>
          let b : Cell := (c.1 + o.1, c.2 + o.2)
          if inGrid b.1 b.2 elevations.width elevations.height ∧
              elevations.get b.1 b.2 = elevations.get c.1 c.2 then
            some b
          else none) offsets
        exact h8
      rw [hlen, List.length_append]
      omega

theorem cgPush_mem_of {elevations : Grid} {a b : Cell}
    (h : reachStep elevations elevations.width elevations.height a b) :
    b ∈ cgPush elevations a := by
  obtain ⟨⟨o, ho, rfl⟩, hg, hel⟩ := h
  unfold cgPush
  rw [List.mem_filterMap]
  exact ⟨o, ho, by rw [if_pos ⟨hg, hel⟩]⟩

/-- Closure invariant of the `CombineGradients` walk: every in-grid
equal-elevation neighbour of a consumed cell is queued or consumed. -/
def cgClos (elevations : Grid) (s : CGState) : Prop :=
  ∀ a, s.towards a = -1 → ∀ b,
    reachStep elevations elevations.width elevations.height a b →
    (b ∈ s.queue ∨ s.towards b = -1)

theorem cg_clos_step (elevations : Grid) (away : Cell → Int) (fh : Int → Int)
    (labels : Cell → Int) (s : CGState) (hclos : cgClos elevations s)
    (hdone : cgDone s = false) :
    cgClos elevations (cgStep elevations away fh labels s) := by
  cases hq : s.queue with
  | nil => rw [cgStep_nil hq]; exact hclos
  | cons c rest =>
    by_cases hc : s.towards c = -1
    · rw [cgStep_skip hq hc]
      intro a ha b hb
      rcases hclos a ha b hb with hm | hm
      · rw [hq] at hm
        rcases List.mem_cons.mp hm with hm2 | hm2
        · subst hm2; right; exact hc
        · left; exact hm2
      · right; exact hm
    · rw [cgStep_proc hq hc]
      intro a ha b hb
      show b ∈ rest ++ cgPush elevations c ∨ upd s.towards c (-1) b = -1
      by_cases hac : a = c
      · subst hac
        left
        exact List.mem_append.mpr (Or.inr (cgPush_mem_of hb))
      · have ha2 : s.towards a = -1 := by
          have : upd s.towards c (-1) a = s.towards a := upd_other _ _ _ _ hac
          rw [← this]
          exact ha
        rcases hclos a ha2 b hb with hm | hm
        · rw [hq] at hm
          rcases List.mem_cons.mp hm with hm2 | hm2
          · subst hm2; right; exact upd_same _ _ _
          · left; exact List.mem_append.mpr (Or.inl hm2)
        · right
          by_cases hbc : b = c
          · subst hbc; exact upd_same _ _ _
          · rw [upd_other _ _ _ _ hbc]; exact hm

/-- `CombineGradients` drains its queue, and afterwards the consumed set is
closed under equal-elevation in-grid steps. -/
theorem cg_final_closure (elevations : Grid) (towards0 away mask0 : Cell → Int)
    (edge : List Cell) (fh : Int → Int) (labels : Cell → Int)
    (hqin : ∀ q ∈ edge, inGrid q.1 q.2 elevations.width elevations.height = true)
    (htw0 : ∀ x, 0 ≤ towards0 x) (a b : Cell)
    (ha : (CombineGradients elevations towards0 away mask0 edge fh labels).towards a = -1)
    (hab : reachStep elevations elevations.width elevations.height a b) :
    (CombineGradients elevations towards0 away mask0 edge fh labels).towards b = -1 := by
  have hinv0 : CGInv elevations { towards := towards0, mask := mask0, queue := edge } :=
    ⟨hqin, fun c => by show (-1 : Int) ≤ towards0 c; have := htw0 c; omega⟩
  have hclos0 : cgClos elevations { towards := towards0, mask := mask0, queue := edge } := by
    intro x hx
    exfalso
    have h1 := htw0 x
    have hx2 : towards0 x = -1 := hx
    omega
  have hrun := @iterRun_inv CGState cgDone (cgStep elevations away fh labels)
    (fun t => CGInv elevations t ∧ cgClos elevations t)
    (fun t ht hd => ⟨cg_inv_step elevations away fh labels t ht.1 hd,
      cg_clos_step elevations away fh labels t ht.2 hd⟩)
    (cgFuel elevations.width elevations.height edge.length)
    { towards := towards0, mask := mask0, queue := edge } ⟨hinv0, hclos0⟩
  have hm0 : cgMeasure elevations { towards := towards0, mask := mask0, queue := edge } ≤
      cgFuel elevations.width elevations.height edge.length := by
    show 9 * cgV elevations { towards := towards0, mask := mask0, queue := edge } +
      edge.length ≤ 9 * (elevations.width * elevations.height) + edge.length + 1
    have hV : cgV elevations { towards := towards0, mask := mask0, queue := edge } ≤
        elevations.width * elevations.height := by
      unfold cgV
      calc ((cellList elevations.width elevations.height).filter fun c =>
            decide (0 ≤ towards0 c)).length
          ≤ (cellList elevations.width elevations.height).length :=
            List.length_filter_le _ _
        _ = elevations.width * elevations.height := cellList_length _ _
    omega
  have hdone := iterRun_done_of_measure
    (P := CGInv elevations) (μ := cgMeasure elevations)
    (fun t ht hd => cg_inv_step elevations away fh labels t ht hd)
    (fun t ht hd => cg_measure_dec elevations away fh labels t ht hd)
    (cgFuel elevations.width elevations.height edge.length)
    { towards := towards0, mask := mask0, queue := edge } hinv0 hm0
  have hqnil : (iterRun cgDone (cgStep elevations away fh labels)
      (cgFuel elevations.width elevations.height edge.length)
      { towards := towards0, mask := mask0, queue := edge }).queue = [] := by
    rw [cgDone] at hdone
    exact List.isEmpty_iff.mp hdone
  unfold CombineGradients at ha ⊢
  rcases hrun.2 a ha b hab with hm | hm
  · rw [hqnil] at hm
    exact absurd hm (List.not_mem_nil _)
  · exact hm

theorem bg_incr_nonneg (elevations flowdirs : Grid) (labels : Cell → Int)
    (seeds : List Cell) (fh0 : Int → Int)
    (hin : inGridCells elevations seeds) (c : Cell) :
    0 ≤ (BuildGradient elevations flowdirs (fun _ => 0) seeds fh0 labels).incr c := by
  have h := (bg_run_inv elevations flowdirs labels
    (bgFuel elevations.width elevations.height seeds.length)
    { incr := fun _ => 0, fh := fh0, queue := seeds ++ [markerCell], loops := 1 }
    (bg_initial_inv elevations flowdirs fh0 seeds hin)).incr_le c
  exact h.1

theorem labInv_labeled_inGrid {elevations : Grid} {w h : Nat} {P : List Cell}
    {labels : Cell → Int} {n : Int} (hinv : LabInv elevations w h P labels n)
    {c : Cell} (hc : labels c ≠ -1) : inGrid c.1 c.2 w h = true := by
  rcases hinv.range c with h2 | ⟨hk0, hkn⟩
  · exact absurd h2 hc
  · obtain ⟨s0, hs0g, hiff⟩ := hinv.classes _ hk0 hkn
    exact eqReach_inGrid ((hiff c).mp rfl) hs0g

theorem labInv_same_label_elev {elevations : Grid} {w h : Nat} {P : List Cell}
    {labels : Cell → Int} {n : Int} (hinv : LabInv elevations w h P labels n)
    {c c' : Cell} (hc : labels c ≠ -1) (hcc : labels c' = labels c) :
    elevations.get c'.1 c'.2 = elevations.get c.1 c.2 := by
  rcases hinv.range c with h2 | ⟨hk0, hkn⟩
  · exact absurd h2 hc
  · obtain ⟨s0, _, hiff⟩ := hinv.classes _ hk0 hkn
    rw [eqReach_elev ((hiff c').mp hcc), eqReach_elev ((hiff c).mp rfl)]

/-- C5: Monotone descent. For every resolved flat cell `c` (mask set,
`flowdirs == NO_FLOW`) with an 8-connected neighbour `c'` in the same
labeled region whose towards-BFS distance is exactly one less than `c`'s,
the final mask of `resolve_flats_barnes` satisfies `mask c > mask c'`
strictly. -/
theorem C5_monotone_descent (elevations flowdirs : Grid)
    (hw : elevations.width = flowdirs.width)
    (hh : elevations.height = flowdirs.height)
    (c c' : Cell)
    (hflow : flowdirs.get c.1 c.2 = NO_FLOW)
    (hmask : (resolve_flats_barnes elevations flowdirs).mask c ≠ -1)
    (hlab : (resolve_flats_barnes elevations flowdirs).labels c ≠ -1)
    (hsame : (resolve_flats_barnes elevations flowdirs).labels c' =
      (resolve_flats_barnes elevations flowdirs).labels c)
    (hadj : adjacent c c')
    (htw : (resolve_flats_barnes elevations flowdirs).towards c' =
      (resolve_flats_barnes elevations flowdirs).towards c - 1) :
    (resolve_flats_barnes elevations flowdirs).mask c' <
      (resolve_flats_barnes elevations flowdirs).mask c := by
  by_cases hemp : (find_flat_edges flowdirs elevations).1.isEmpty
  · exfalso
    apply hmask
    unfold resolve_flats_barnes
    rw [if_pos hemp]
  · unfold resolve_flats_barnes at hmask hlab hsame htw
    rw [if_neg hemp] at hmask hlab hsame htw
    have hmask2 : (resolveCG elevations flowdirs).mask c ≠ -1 := hmask
    have hlab2 : (resolveLabels elevations flowdirs).1 c ≠ -1 := hlab
    have hsame2 : (resolveLabels elevations flowdirs).1 c' =
        (resolveLabels elevations flowdirs).1 c := hsame
    have htw2 : (resolveBgT elevations flowdirs).incr c' =
        (resolveBgT elevations flowdirs).incr c - 1 := htw
    have hinvL := resolve_labInv elevations flowdirs
    have hlabc' : (resolveLabels elevations flowdirs).1 c' ≠ -1 := by
      rw [hsame2]; exact hlab2
    have hcg : inGrid c.1 c.2 elevations.width elevations.height = true := by
      rw [hw, hh]; exact labInv_labeled_inGrid hinvL hlab2
    have hcgc' : inGrid c'.1 c'.2 elevations.width elevations.height = true := by
      rw [hw, hh]; exact labInv_labeled_inGrid hinvL hlabc'
    have helev : elevations.get c'.1 c'.2 = elevations.get c.1 c.2 :=
      labInv_same_label_elev hinvL hlab2 hsame2
    have hseeds : inGridCells elevations (find_flat_edges flowdirs elevations).1 := by
      intro q hq
      rw [hw, hh]
      exact (inGrid_iff _ _ _ _).mpr (low_edges_in_grid hq)
    have hhigh2 : inGridCells elevations (resolveHigh2 elevations flowdirs) := by
      intro q hq
      unfold resolveHigh2 at hq
      rw [List.mem_filter] at hq
      have hlq : (resolveLabels elevations flowdirs).1 q ≠ -1 :=
        of_decide_eq_true hq.2
      rw [hw, hh]
      exact labInv_labeled_inGrid hinvL hlq
    have htw0 : ∀ x, 0 ≤ (resolveBgT elevations flowdirs).incr x := fun x =>
      bg_incr_nonneg elevations flowdirs (resolveLabels elevations flowdirs).1
        (find_flat_edges flowdirs elevations).1 (fun _ => 0) hseeds x
    have haw0 : ∀ x, 0 ≤ (resolveBgA elevations flowdirs).incr x := fun x =>
      bg_incr_nonneg elevations flowdirs (resolveLabels elevations flowdirs).1
        (resolveHigh2 elevations flowdirs) (resolveBgT elevations flowdirs).fh hhigh2 x
    have hchar_c := cg_mask_char elevations (resolveBgA elevations flowdirs).incr
      (resolveBgA elevations flowdirs).fh (resolveLabels elevations flowdirs).1
      (cgFuel elevations.width elevations.height
        (find_flat_edges flowdirs elevations).1.length)
      { towards := (resolveBgT elevations flowdirs).incr, mask := fun _ => -1,
        queue := (find_flat_edges flowdirs elevations).1 } c
    have hcond : (resolveCG elevations flowdirs).towards c = -1 ∧
        0 < (resolveBgT elevations flowdirs).incr c := by
      by_contra hcon
      exact hmask2 (hchar_c.2 hcon)
    have hmaskc : (resolveCG elevations flowdirs).mask c =
        cgMaskValue (resolveBgA elevations flowdirs).incr
          (resolveBgA elevations flowdirs).fh (resolveLabels elevations flowdirs).1
          ((resolveBgT elevations flowdirs).incr c) c :=
      hchar_c.1 hcond
    have hTc1 : (resolveBgT elevations flowdirs).incr c ≠ 1 := by
      intro h1
      exact low_edges_not_no_flow
        (bg_incr_one_seed elevations flowdirs (resolveLabels elevations flowdirs).1
          (find_flat_edges flowdirs elevations).1 (fun _ => 0) hseeds c h1) hflow
    have hTc2 : 2 ≤ (resolveBgT elevations flowdirs).incr c := by
      have h1 := hcond.2
      omega
    have hTc'pos : 0 < (resolveBgT elevations flowdirs).incr c' := by omega
    have htwc' : (resolveCG elevations flowdirs).towards c' = -1 :=
      cg_final_closure elevations (resolveBgT elevations flowdirs).incr
        (resolveBgA elevations flowdirs).incr (fun _ => -1)
        (find_flat_edges flowdirs elevations).1 (resolveBgA elevations flowdirs).fh
        (resolveLabels elevations flowdirs).1 hseeds htw0 c c' hcond.1
        ⟨hadj, hcgc', helev⟩
    have hchar_c' := cg_mask_char elevations (resolveBgA elevations flowdirs).incr
      (resolveBgA elevations flowdirs).fh (resolveLabels elevations flowdirs).1
      (cgFuel elevations.width elevations.height
        (find_flat_edges flowdirs elevations).1.length)
      { towards := (resolveBgT elevations flowdirs).incr, mask := fun _ => -1,
        queue := (find_flat_edges flowdirs elevations).1 } c'
    have hmaskc' : (resolveCG elevations flowdirs).mask c' =
        cgMaskValue (resolveBgA elevations flowdirs).incr
          (resolveBgA elevations flowdirs).fh (resolveLabels elevations flowdirs).1
          ((resolveBgT elevations flowdirs).incr c') c' :=
      hchar_c'.1 ⟨htwc', hTc'pos⟩
    have hg : cgMaskValue (resolveBgA elevations flowdirs).incr
        (resolveBgA elevations flowdirs).fh (resolveLabels elevations flowdirs).1
        ((resolveBgT elevations flowdirs).incr c') c' <
        cgMaskValue (resolveBgA elevations flowdirs).incr
          (resolveBgA elevations flowdirs).fh (resolveLabels elevations flowdirs).1
          ((resolveBgT elevations flowdirs).incr c) c := by
      unfold cgMaskValue
      rw [hsame2]
      by_cases hac' : (resolveBgA elevations flowdirs).incr c' > 0
      · have hel : bgElig elevations flowdirs c' c :=
          ⟨adjacent_symm hadj, hcg, helev.symm, hflow⟩
        have hlayer : 0 < (resolveBgA elevations flowdirs).incr c ∧
            (resolveBgA elevations flowdirs).incr c ≤
              (resolveBgA elevations flowdirs).incr c' + 1 :=
          bg_layer_adjacent elevations flowdirs (resolveLabels elevations flowdirs).1
            (resolveHigh2 elevations flowdirs) (resolveBgT elevations flowdirs).fh
            hhigh2 c' c hac' hel
        rw [if_pos hac', if_pos hlayer.1]
        have h2 := hlayer.2
        omega
      · rw [if_neg hac']
        by_cases hac : (resolveBgA elevations flowdirs).incr c > 0
        · rw [if_pos hac]
          have hfhc : (resolveBgA elevations flowdirs).incr c ≤
              (resolveBgA elevations flowdirs).fh
                ((resolveLabels elevations flowdirs).1 c) :=
            bg_fh_ge elevations flowdirs (resolveLabels elevations flowdirs).1
              (resolveHigh2 elevations flowdirs) (resolveBgT elevations flowdirs).fh
              hhigh2 c
              (by show 1 ≤ (resolveBgA elevations flowdirs).incr c; omega)
          omega
        · rw [if_neg hac]
          omega
    unfold resolve_flats_barnes
    rw [if_neg hemp]
    show (resolveCG elevations flowdirs).mask c' < (resolveCG elevations flowdirs).mask c
    rw [hmaskc, hmaskc']
    exact hg

/-- A concrete monotone-descent instance on the single-row fixture: cell
`(2,0)` (mask `4`, towards `3`) descends strictly to its neighbour `(1,0)`
(mask `2`, towards `2`). -/
theorem C5_witness :
    (resolve_flats_barnes elSR fdSR).mask (1, 0) <
      (resolve_flats_barnes elSR fdSR).mask (2, 0) :=
  C5_monotone_descent elSR fdSR rfl rfl (2, 0) (1, 0) (by decide) (by decide)
    (by decide) (by decide) ⟨(-1, 0), by decide, by decide⟩ (by decide)
